import Mathlib

/-!
Verification of the lightws websocket stream layer.

Bytes are modelled as `Nat` values (< 256 on real wires; the algebraic
facts below hold for all `Nat`).  The repository's `src/stream/mod.rs`
provides the `Stream` composition layer and the `LimitReadWriter` test
mock; the sibling state machines (`ReadState`, `WriteState`, `HeartBeat`)
and the frame codec are modelled from the specification.
-/

namespace LightWS

/-- Modelled from the spec: XOR-mask a byte sequence with a 4-byte rolling
key, starting at mask cursor `c` (spec section 6: payload byte `i` is XORed
with `key[i mod 4]`). -/
def maskBytes (key : List Nat) : Nat → List Nat → List Nat
  | _, [] => []
  | c, b :: rest => (b ^^^ key.getD (c % 4) 0) :: maskBytes key (c + 1) rest

/-- Modelled from the spec: big-endian byte encoding of a payload length,
`k` bytes wide (spec section 6: 16-bit and 64-bit extended length forms). -/
def beBytes : Nat → Nat → List Nat
  | 0, _ => []
  | k + 1, n => beBytes k (n / 256) ++ [n % 256]

/-- Big-endian value of a byte list (decoder side of the extended length). -/
def beVal : List Nat → Nat
  | [] => 0
  | b :: rest => b * 256 ^ rest.length + beVal rest

/-- Websocket frame opcode (spec section 6: 0 continuation, 1 text, 2 binary,
8 close, 9 ping, 10 pong, all other nibble values reserved). -/
inductive OpCode where
  | continuation
  | text
  | binary
  | close
  | ping
  | pong
  | reserved (n : Nat)
deriving DecidableEq, Repr

/-- Wire nibble of an opcode. -/
def encodeOp : OpCode → Nat
  | .continuation => 0
  | .text => 1
  | .binary => 2
  | .close => 8
  | .ping => 9
  | .pong => 10
  | .reserved n => n

/-- Opcode decoded from a wire nibble. -/
def decodeOp (n : Nat) : OpCode :=
  if n = 0 then .continuation
  else if n = 1 then .text
  else if n = 2 then .binary
  else if n = 8 then .close
  else if n = 9 then .ping
  else if n = 10 then .pong
  else .reserved n

/-- The opcode is one of the six values defined by the protocol. -/
def OpCode.std : OpCode → Bool
  | .reserved _ => false
  | _ => true

/-- The opcode marks a control frame (ping, pong or close). -/
def OpCode.isCtrl : OpCode → Bool
  | .close => true
  | .ping => true
  | .pong => true
  | _ => false

/-- Decoded websocket frame header (the `FrameHead` collaborator of the
spec): fin flag, opcode, optional 4-byte mask key, payload length. -/
structure FrameHead where
  fin : Bool
  opcode : OpCode
  mask : Option (List Nat)
  len : Nat
deriving DecidableEq, Repr

/-- Extended-length byte count for a 7-bit length class. -/
def extLenOf (c : Nat) : Nat :=
  if c = 126 then 2 else if c = 127 then 8 else 0

/-- Modelled from the spec: encode a frame header into wire bytes
(spec section 6 bit layout; the frame codec collaborator's encode). -/
def encodeHead (h : FrameHead) : List Nat :=
  let b0 := (if h.fin then 128 else 0) + encodeOp h.opcode
  let maskBit : Nat := match h.mask with | some _ => 128 | none => 0
  let keyBytes : List Nat := match h.mask with | some k => k | none => []
  if h.len ≤ 125 then b0 :: (maskBit + h.len) :: keyBytes
  else if h.len ≤ 65535 then b0 :: (maskBit + 126) :: (beBytes 2 h.len ++ keyBytes)
  else b0 :: (maskBit + 127) :: (beBytes 8 h.len ++ keyBytes)

/-- Modelled from the spec: total header length implied by the first two
header bytes; `2` when fewer than two bytes are available yet.  This is how
the read state machine knows how many more header bytes to request. -/
def headerNeed : List Nat → Nat
  | _ :: b1 :: _ => 2 + extLenOf (b1 % 128) + (if 128 ≤ b1 then 4 else 0)
  | _ => 2

/-- Modelled from the spec: decode a complete frame header from wire bytes
(the frame codec collaborator's decode); `none` when the bytes are not a
well-formed complete header (reserved rsv bits set, or wrong length). -/
def decodeHead : List Nat → Option FrameHead
  | b0 :: b1 :: rest =>
      if 16 ≤ b0 % 128 then none
      else
        let masked := 128 ≤ b1
        let c := b1 % 128
        let el := extLenOf c
        if rest.length = el + (if masked then 4 else 0) then
          let len := if c = 126 then beVal (rest.take 2)
            else if c = 127 then beVal (rest.take 8) else c
          some ⟨128 ≤ b0, decodeOp (b0 % 16),
            if masked then some (rest.drop el) else none, len⟩
        else none
  | _ => none

/-- Length of the encoded header of a frame (2 header bytes, the extended
length bytes, and the 4 mask-key bytes when masked). -/
def headLenOf (h : FrameHead) : Nat :=
  2 + (if h.len ≤ 125 then 0 else if h.len ≤ 65535 then 2 else 8)
    + (match h.mask with | some _ => 4 | none => 0)

/-- The `LimitReadWriter` mock I/O source of `src/stream/mod.rs` (tests):
a shared byte buffer written at the end and read at `cursor`, with per-call
read/write limits.  `ops` counts underlying I/O operations (the call-count
instrumentation the spec's at-most-one-operation property asks for) and
`rfail` makes the next read fail with an I/O error (modelling a fallible
source; the original mock is infallible). -/
structure LimitRW where
  buf : List Nat
  rlimit : Nat
  wlimit : Nat
  cursor : Nat
  ops : Nat
  rfail : Bool
deriving DecidableEq, Repr

/-- One underlying read operation: returns at most `min n rlimit` bytes from
the buffer at the cursor (an empty result is EOF), or `none` on I/O error. -/
def LimitRW.read (io : LimitRW) (n : Nat) : LimitRW × Option (List Nat) :=
  if io.rfail then ({ io with ops := io.ops + 1 }, none)
  else
    let toRead := min n io.rlimit
    let avail := io.buf.length - io.cursor
    let got := min toRead avail
    ({ io with cursor := io.cursor + got, ops := io.ops + 1 },
      some ((io.buf.drop io.cursor).take got))

/-- One underlying write operation: appends at most `wlimit` bytes to the
buffer and reports how many were accepted. -/
def LimitRW.write (io : LimitRW) (bytes : List Nat) : LimitRW × Nat :=
  let n := min bytes.length io.wlimit
  ({ io with buf := io.buf ++ bytes.take n, ops := io.ops + 1 }, n)

/-- Error kinds surfaced by stream operations (spec section 7). -/
inductive WsError where
  | protocolError
  | ioError
  | closedError
deriving DecidableEq, Repr

/-- Modelled from the spec: the read state machine of the stream
(`ReadState` lives outside `src/`; fields follow spec section 3).
`headBuf` is the fixed-size header scratch, `head`/`remaining`/`cursor`
describe the frame being consumed, `ctrlBuf` is the control-frame scratch,
`fin`/`opcode` surface the current data frame's header to the caller,
`pendingPong` is the auto-queued reply to a ping, and the flags record
close-observed, EOF-observed and protocol-error-poisoned conditions. -/
structure ReadState where
  headBuf : List Nat
  head : Option FrameHead
  remaining : Nat
  cursor : Nat
  ctrlBuf : List Nat
  fragmented : Bool
  fin : Bool
  opcode : OpCode
  pendingPong : Option (List Nat)
  closeObserved : Bool
  readEnd : Bool
  poisoned : Bool
deriving DecidableEq, Repr

/-- Modelled from the spec: the initial read state (`ReadState::new`). -/
def ReadState.new : ReadState :=
  { headBuf := [], head := none, remaining := 0, cursor := 0, ctrlBuf := [],
    fragmented := false, fin := true, opcode := OpCode.continuation,
    pendingPong := none, closeObserved := false, readEnd := false, poisoned := false }

/-- The end-of-stream / close-observed query by which callers distinguish a
zero return that is EOF from one that merely needs another call. -/
def ReadState.is_read_end (s : ReadState) : Bool := s.readEnd || s.closeObserved

/-- Result of one call to the stream's read entry point: the updated state
machine, the updated I/O source, the data-frame payload bytes delivered to
the caller's buffer (the usize returned by `read` is `out.length`), and the
error, if any. -/
structure ROut where
  state : ReadState
  io : LimitRW
  out : List Nat
  err : Option WsError
deriving DecidableEq, Repr

/-- Unmask a payload chunk arriving at mask cursor `c` (identity when the
frame is unmasked). -/
def unmaskChunk (h : FrameHead) (c : Nat) (bytes : List Nat) : List Nat :=
  match h.mask with
  | some key => maskBytes key c bytes
  | none => bytes

/-- Modelled from the spec: completion of a fully received control frame
(spec section 4.1 step 3): ping queues an automatic pong, pong is consumed
(forwarded to the heartbeat at the stream level), close records the
close-observed condition. -/
def dispatchCtrl (s : ReadState) (h : FrameHead) (payload : List Nat) : ReadState :=
  match h.opcode with
  | OpCode.ping =>
      { s with pendingPong := some payload, head := none, remaining := 0,
               cursor := 0, ctrlBuf := [] }
  | OpCode.pong =>
      { s with head := none, remaining := 0, cursor := 0, ctrlBuf := [] }
  | _ =>
      { s with closeObserved := true, head := none, remaining := 0,
               cursor := 0, ctrlBuf := [] }

/-- Modelled from the spec: header validation and installation once the
scratch holds a complete header (spec section 4.1 steps 1-4): reject
malformed headers, mask-flag/role mismatches (`reqMask` is the role
policy's requires-mask-incoming answer) and reserved opcodes with a
ProtocolError (poisoning the read direction); install control frames for
scratch accumulation (rejecting payloads over 125 bytes); install data
frames for direct payload delivery, zero-length frames completing at once. -/
def processHeader (reqMask : Bool) (s : ReadState) (buf : List Nat) (io : LimitRW) : ROut :=
  match decodeHead buf with
  | none => ⟨{ s with poisoned := true }, io, [], some WsError.protocolError⟩
  | some h =>
      if h.mask.isSome ≠ reqMask then
        ⟨{ s with poisoned := true }, io, [], some WsError.protocolError⟩
      else if h.opcode.std = false then
        ⟨{ s with poisoned := true }, io, [], some WsError.protocolError⟩
      else if h.opcode.isCtrl then
        if 125 < h.len then
          ⟨{ s with poisoned := true }, io, [], some WsError.protocolError⟩
        else if h.len = 0 then
          ⟨dispatchCtrl { s with headBuf := [] } h [], io, [], none⟩
        else
          ⟨{ s with headBuf := [], head := some h, remaining := h.len,
                    cursor := 0, ctrlBuf := [] }, io, [], none⟩
      else
        let op := if h.opcode = OpCode.continuation then s.opcode else h.opcode
        if h.len = 0 then
          ⟨{ s with headBuf := [], head := none, remaining := 0, cursor := 0,
                    fin := h.fin, opcode := op, fragmented := !h.fin }, io, [], none⟩
        else
          ⟨{ s with headBuf := [], head := some h, remaining := h.len, cursor := 0,
                    fin := h.fin, opcode := op, fragmented := !h.fin }, io, [], none⟩

/-- Modelled from the spec: one call to the stream's read entry point
(spec section 4.1).  Performs at most one operation on the underlying
source: fail fast when poisoned or closed; otherwise fill the header
scratch and try to parse (step 1), or accumulate a control frame's payload
into the control scratch (step 3), or deliver/unmask data payload straight
into the caller's buffer (step 4), clearing the header at frame end
(step 5).  A caller buffer of capacity 0 performs no I/O. -/
def readOnce (reqMask : Bool) (s : ReadState) (io : LimitRW) (cap : Nat) : ROut :=
  if s.poisoned then ⟨s, io, [], some WsError.protocolError⟩
  else if s.closeObserved then ⟨s, io, [], some WsError.closedError⟩
  else
    match s.head with
    | none =>
        if s.headBuf.length < headerNeed s.headBuf then
          if cap = 0 then ⟨s, io, [], none⟩
          else
          match io.read (headerNeed s.headBuf - s.headBuf.length) with
          | (io1, none) => ⟨s, io1, [], some WsError.ioError⟩
          | (io1, some got) =>
              if got.isEmpty then ⟨{ s with readEnd := true }, io1, [], none⟩
              else
                let buf1 := s.headBuf ++ got
                if buf1.length < headerNeed buf1 then
                  ⟨{ s with headBuf := buf1 }, io1, [], none⟩
                else processHeader reqMask s buf1 io1
        else processHeader reqMask s s.headBuf io
    | some h =>
        if h.opcode.isCtrl then
          if cap = 0 then ⟨s, io, [], none⟩
          else
          match io.read s.remaining with
          | (io1, none) => ⟨s, io1, [], some WsError.ioError⟩
          | (io1, some got) =>
              if got.isEmpty then ⟨{ s with readEnd := true }, io1, [], none⟩
              else
                let chunk := unmaskChunk h s.cursor got
                if s.remaining - got.length = 0 then
                  ⟨dispatchCtrl { s with ctrlBuf := s.ctrlBuf ++ chunk } h
                    (s.ctrlBuf ++ chunk), io1, [], none⟩
                else
                  ⟨{ s with ctrlBuf := s.ctrlBuf ++ chunk,
                            remaining := s.remaining - got.length,
                            cursor := s.cursor + got.length }, io1, [], none⟩
        else
          if min cap s.remaining = 0 then ⟨s, io, [], none⟩
          else
            match io.read (min cap s.remaining) with
            | (io1, none) => ⟨s, io1, [], some WsError.ioError⟩
            | (io1, some got) =>
                if got.isEmpty then ⟨{ s with readEnd := true }, io1, [], none⟩
                else
                  let out := unmaskChunk h s.cursor got
                  if s.remaining - got.length = 0 then
                    ⟨{ s with head := none, remaining := 0, cursor := 0 },
                      io1, out, none⟩
                  else
                    ⟨{ s with remaining := s.remaining - got.length,
                              cursor := s.cursor + got.length }, io1, out, none⟩

/-- Modelled from the spec: the write state machine of the stream
(`WriteState` lives outside `src/`; fields follow spec section 3):
`pendingHead` holds the not-yet-flushed bytes of the current frame's
header, `inFrame` is set while a frame is being emitted, `remaining`
counts payload bytes still to send, `key`/`cursor` drive outgoing
masking, and `poisoned` records a protocol-error-poisoned direction. -/
structure WriteState where
  pendingHead : List Nat
  inFrame : Bool
  remaining : Nat
  key : Option (List Nat)
  cursor : Nat
  poisoned : Bool
deriving DecidableEq, Repr

/-- Modelled from the spec: the initial write state (`WriteState::new`). -/
def WriteState.new : WriteState :=
  { pendingHead := [], inFrame := false, remaining := 0, key := none,
    cursor := 0, poisoned := false }

/-- Result of one call to the stream's write entry point: the updated state
machine, the updated I/O source, the number of payload bytes accepted, the
caller's buffer as it stands after the call (the model makes the
no-mutation contract explicit), and the error, if any. -/
structure WOut where
  state : WriteState
  io : LimitRW
  accepted : Nat
  buf : List Nat
  err : Option WsError
deriving DecidableEq, Repr

/-- Modelled from the spec: one call to the stream's write entry point
(spec section 4.2).  Performs at most one operation on the underlying
sink.  `mk` is the role policy's mask decision for outgoing frames
(`some key` for a Client, `none` for a Server).  Starting a frame encodes
a fin=true binary header for the whole payload and issues one write for
it; while header bytes remain pending they are flushed first and 0 payload
bytes are accepted; afterwards each call sends one I/O operation's worth
of payload, masked against a scratch copy, and a frame whose payload
completes resets the state for the next header. -/
def writeOnce (mk : Option (List Nat)) (s : WriteState) (io : LimitRW)
    (payload : List Nat) : WOut :=
  if s.poisoned then ⟨s, io, 0, payload, some WsError.protocolError⟩
  else if s.inFrame then
    if s.pendingHead.isEmpty then
      let seg := payload.take s.remaining
      if seg.isEmpty then ⟨s, io, 0, payload, none⟩
      else
        let scratch := match s.key with
          | some key => maskBytes key s.cursor seg
          | none => seg
        let r := io.write scratch
        if s.remaining - r.2 = 0 then
          ⟨WriteState.new, r.1, r.2, payload, none⟩
        else
          ⟨{ s with remaining := s.remaining - r.2, cursor := s.cursor + r.2 },
            r.1, r.2, payload, none⟩
    else
      let r := io.write s.pendingHead
      let ph := s.pendingHead.drop r.2
      if ph.isEmpty && s.remaining = 0 then
        ⟨WriteState.new, r.1, 0, payload, none⟩
      else
        ⟨{ s with pendingHead := ph }, r.1, 0, payload, none⟩
  else
    if payload.isEmpty then ⟨s, io, 0, payload, none⟩
    else
      let bytes := encodeHead ⟨true, OpCode.binary, mk, payload.length⟩
      let r := io.write bytes
      ⟨{ s with inFrame := true, pendingHead := bytes.drop r.2,
                remaining := payload.length, key := mk, cursor := 0 },
        r.1, 0, payload, none⟩

/-- The caller-side write loop of the repository's round-trip test: keep
calling `writeOnce` with the not-yet-accepted payload suffix until the
whole payload is accepted and the frame is complete. -/
def writeAll (mk : Option (List Nat)) (s : WriteState) (io : LimitRW)
    (payload : List Nat) : Nat → Option (WriteState × LimitRW)
  | 0 => none
  | fuel + 1 =>
      if payload.isEmpty ∧ s.inFrame = false then some (s, io)
      else
        let r := writeOnce mk s io payload
        match r.err with
        | some _ => none
        | none => writeAll mk r.state r.io (payload.drop r.accepted) fuel

/-- The caller-side read loop of the repository's round-trip test: keep
calling `readOnce` and collecting delivered bytes until the shared buffer
is fully consumed (the test's EOF-avoiding break condition). -/
def readAll (reqMask : Bool) (s : ReadState) (io : LimitRW) (cap : Nat) :
    Nat → Option (ReadState × LimitRW × List Nat)
  | 0 => none
  | fuel + 1 =>
      if io.cursor = io.buf.length then some (s, io, [])
      else
        let r := readOnce reqMask s io cap
        match r.err with
        | some _ => none
        | none =>
            match readAll reqMask r.state r.io cap fuel with
            | none => none
            | some (s2, io2, out2) => some (s2, io2, r.out ++ out2)

/-- Modelled from the spec: the heartbeat controller state (spec
sections 3 and 4.3): last-ping-sent and last-pong-received timestamps,
whether a ping is outstanding, and the configured interval and timeout. -/
structure HeartBeat where
  lastPingSent : Option Nat
  lastPongReceived : Option Nat
  outstanding : Bool
  interval : Nat
  timeout : Nat
deriving DecidableEq, Repr

/-- Modelled from the spec: the initial heartbeat state (`HeartBeat::new`,
`src/stream/mod.rs` line 88): nothing sent, received or outstanding; the
spec leaves the configured interval and timeout open, fixed here as
arbitrary constants. -/
def HeartBeat.new : HeartBeat :=
  { lastPingSent := none, lastPongReceived := none, outstanding := false,
    interval := 30, timeout := 30 }

/-- Modelled from the spec: a ping is due when the interval has elapsed
since the last ping (or none was ever sent) and no ping is outstanding. -/
def HeartBeat.should_send_ping (hb : HeartBeat) (now : Nat) : Bool :=
  !hb.outstanding &&
    (match hb.lastPingSent with
     | none => true
     | some t => decide (hb.interval ≤ now - t))

/-- Modelled from the spec: record that a ping was sent now. -/
def HeartBeat.note_ping_sent (hb : HeartBeat) (now : Nat) : HeartBeat :=
  { hb with lastPingSent := some now, outstanding := true }

/-- Modelled from the spec: a matching pong satisfies the outstanding ping. -/
def HeartBeat.on_pong_received (hb : HeartBeat) (now : Nat) : HeartBeat :=
  { hb with lastPongReceived := some now, outstanding := false }

/-- Modelled from the spec: the connection is stale when an outstanding
ping has waited longer than the pong timeout without a matching pong. -/
def HeartBeat.is_stale (hb : HeartBeat) (now : Nat) : Bool :=
  hb.outstanding &&
    (match hb.lastPingSent with
     | none => false
     | some t => decide (hb.timeout < now - t))

/-- The role policy collaborator (spec sections 2 and 4.4). -/
inductive Role where
  | client
  | server
deriving DecidableEq, Repr

/-- Does this side mask the frames it originates? (Client masks.) -/
def Role.wants_mask_outgoing : Role → Bool
  | .client => true
  | .server => false

/-- Must incoming frames be masked? (A Server requires masked incoming; a
Client requires unmasked incoming.) -/
def Role.requires_mask_incoming : Role → Bool
  | .client => false
  | .server => true

/-- The `Stream` struct of `src/stream/mod.rs` lines 51-57: owns the IO
source and the three state machines by value; `Role` is a phantom
compile-time tag (`PhantomData<Role>`), carried here as an unused type
parameter. -/
structure Stream (Io : Type) (R : Type) where
  io : Io
  read_state : ReadState
  write_state : WriteState
  heartbeat : HeartBeat

/-- `Stream::new` (`src/stream/mod.rs` lines 79-92): store the IO source
directly, without a handshake, and initialize the three state machines. -/
def Stream.new (Io R : Type) (io : Io) : Stream Io R :=
  { io := io, read_state := ReadState.new, write_state := WriteState.new,
    heartbeat := HeartBeat.new }

/-- The `AsRef<IO>` impl (`src/stream/mod.rs` lines 59-62). -/
def Stream.as_ref {Io R : Type} (s : Stream Io R) : Io := s.io

/-- The `AsMut<IO>` impl (`src/stream/mod.rs` lines 64-67). -/
def Stream.as_mut {Io R : Type} (s : Stream Io R) : Io := s.io

/-- One read call at the stream level: drives the read state machine and
the shared IO source; the write state machine and heartbeat are untouched. -/
def streamRead {R : Type} (reqMask : Bool) (st : Stream LimitRW R) (cap : Nat) :
    Stream LimitRW R × List Nat × Option WsError :=
  let r := readOnce reqMask st.read_state st.io cap
  ({ st with read_state := r.state, io := r.io }, r.out, r.err)

/-- One write call at the stream level: drives the write state machine and
the shared IO source; the read state machine and heartbeat are untouched. -/
def streamWrite {R : Type} (mk : Option (List Nat)) (st : Stream LimitRW R)
    (payload : List Nat) : Stream LimitRW R × Nat × Option WsError :=
  let r := writeOnce mk st.write_state st.io payload
  ({ st with write_state := r.state, io := r.io }, r.accepted, r.err)

/-- Header of the single binary fin frame that `write` emits for a payload. -/
def mkHead (mk : Option (List Nat)) (P : List Nat) : FrameHead :=
  ⟨true, OpCode.binary, mk, P.length⟩

/-- The payload as it appears on the wire (masked for a Client writer). -/
def wirePayload (mk : Option (List Nat)) (P : List Nat) : List Nat :=
  match mk with
  | some key => maskBytes key 0 P
  | none => P

/-- The complete wire image of one written frame. -/
def wireFrame (mk : Option (List Nat)) (P : List Nat) : List Nat :=
  encodeHead (mkHead mk P) ++ wirePayload mk P

/-- Reader state after consuming `j` bytes of the current frame header. -/
def rStateH (H : List Nat) (j : Nat) : ReadState :=
  { ReadState.new with headBuf := H.take j }

/-- Reader state after delivering `k` payload bytes of the current frame. -/
def rStateP (mk : Option (List Nat)) (P : List Nat) (k : Nat) : ReadState :=
  { ReadState.new with head := some (mkHead mk P), remaining := P.length - k,
                       cursor := k, opcode := OpCode.binary, fin := true }

/-- Reader state after fully consuming one binary frame. -/
def rStateDone : ReadState :=
  { ReadState.new with opcode := OpCode.binary }

/-- Writer state with `j` bytes of the frame header already flushed. -/
def wStateH (mk : Option (List Nat)) (P : List Nat) (j : Nat) : WriteState :=
  { pendingHead := (encodeHead (mkHead mk P)).drop j, inFrame := true,
    remaining := P.length, key := mk, cursor := 0, poisoned := false }

/-- Writer state with the header flushed and `k` payload bytes accepted. -/
def wStateP (mk : Option (List Nat)) (P : List Nat) (k : Nat) : WriteState :=
  { pendingHead := [], inFrame := true, remaining := P.length - k, key := mk,
    cursor := k, poisoned := false }

/-- All buffering the read state machine ever does is bounded by fixed
constants: at most 14 bytes of header scratch and at most 125 bytes of
control-frame scratch — never an amount proportional to payload size. -/
def ReadState.scratchBounded (s : ReadState) : Prop :=
  s.headBuf.length ≤ 14 ∧ s.ctrlBuf.length ≤ 125 ∧
  (∀ h, s.head = some h → h.opcode.isCtrl = true →
    s.ctrlBuf.length + s.remaining ≤ 125)

/-- The write state machine buffers at most 14 bytes of pending header. -/
def WriteState.scratchBounded (w : WriteState) : Prop := w.pendingHead.length ≤ 14

theorem maskBytes_length (key : List Nat) (c : Nat) (xs : List Nat) :
    (maskBytes key c xs).length = xs.length := by
  induction xs generalizing c with
  | nil => rfl
  | cons b rest ih => simp [maskBytes, ih]

theorem maskBytes_append (key : List Nat) (c : Nat) (xs ys : List Nat) :
    maskBytes key c (xs ++ ys) = maskBytes key c xs ++ maskBytes key (c + xs.length) ys := by
  induction xs generalizing c with
  | nil => simp [maskBytes]
  | cons b rest ih =>
      simp only [List.cons_append, maskBytes, List.append_eq, ih (c + 1), List.length_cons]
      have h : c + 1 + rest.length = c + (rest.length + 1) := by omega
      rw [h]

theorem maskBytes_take (key : List Nat) (c n : Nat) (xs : List Nat) :
    (maskBytes key c xs).take n = maskBytes key c (xs.take n) := by
  induction xs generalizing c n with
  | nil => simp [maskBytes]
  | cons b rest ih =>
      cases n with
      | zero => simp [maskBytes]
      | succ m => simp [maskBytes, ih]

theorem maskBytes_drop (key : List Nat) (c n : Nat) (xs : List Nat) :
    (maskBytes key c xs).drop n = maskBytes key (c + n) (xs.drop n) := by
  induction xs generalizing c n with
  | nil => simp [maskBytes]
  | cons b rest ih =>
      cases n with
      | zero => simp [maskBytes]
      | succ m =>
          simp only [maskBytes, List.drop_succ_cons, ih (c + 1) m]
          have h : c + 1 + m = c + (m + 1) := by omega
          rw [h]

theorem maskBytes_maskBytes (key : List Nat) (c : Nat) (xs : List Nat) :
    maskBytes key c (maskBytes key c xs) = xs := by
  induction xs generalizing c with
  | nil => rfl
  | cons b rest ih =>
      simp only [maskBytes, ih (c + 1), List.cons.injEq, and_true]
      exact Nat.xor_cancel_right _ _

theorem beBytes_length (k n : Nat) : (beBytes k n).length = k := by
  induction k generalizing n with
  | zero => rfl
  | succ m ih => simp [beBytes, ih]

theorem beVal_append_singleton (xs : List Nat) (b : Nat) :
    beVal (xs ++ [b]) = 256 * beVal xs + b := by
  induction xs with
  | nil => simp [beVal]
  | cons a rest ih =>
      simp only [List.cons_append, beVal, List.append_eq, ih, List.length_append,
        List.length_cons, List.length_nil]
      ring

theorem beVal_beBytes (k n : Nat) : beVal (beBytes k n) = n % 256 ^ k := by
  induction k generalizing n with
  | zero => simp [beBytes, beVal, Nat.mod_one]
  | succ m ih =>
      simp only [beBytes, beVal_append_singleton, ih]
      have h256 : 256 ^ (m + 1) = 256 * 256 ^ m := by ring
      rw [h256, Nat.mod_mul]
      ring

theorem beVal_beBytes_of_lt (k n : Nat) (h : n < 256 ^ k) : beVal (beBytes k n) = n := by
  rw [beVal_beBytes, Nat.mod_eq_of_lt h]

theorem decodeOp_encodeOp (op : OpCode) (h : op.std = true) :
    decodeOp (encodeOp op) = op := by
  cases op <;> simp_all [OpCode.std, decodeOp, encodeOp]

theorem encodeOp_lt (op : OpCode) (h : op.std = true) : encodeOp op < 16 := by
  cases op <;> simp_all [OpCode.std, encodeOp]

theorem headerNeed_congr (b0 b1 : Nat) (t t' : List Nat) :
    headerNeed (b0 :: b1 :: t) = headerNeed (b0 :: b1 :: t') := rfl

theorem headerNeed_cons_eval (b0 b1 : Nat) (t : List Nat) :
    headerNeed (b0 :: b1 :: t) = 2 + extLenOf (b1 % 128) + (if 128 ≤ b1 then 4 else 0) := rfl

theorem extLenOf_small (c : Nat) (hc : c ≤ 125) : extLenOf c = 0 := by
  rw [extLenOf, if_neg (by omega), if_neg (by omega)]

theorem encodeHead_length (h : FrameHead)
    (hkey : ∀ k, h.mask = some k → k.length = 4) :
    (encodeHead h).length = headLenOf h := by
  rcases hm : h.mask with _ | k
  · simp only [encodeHead, headLenOf, hm]
    by_cases h1 : h.len ≤ 125
    · rw [if_pos h1, if_pos h1]; simp
    · by_cases h2 : h.len ≤ 65535
      · rw [if_neg h1, if_neg h1, if_pos h2, if_pos h2]; simp [beBytes_length]
      · rw [if_neg h1, if_neg h1, if_neg h2, if_neg h2]; simp [beBytes_length]
  · have hk4 : k.length = 4 := hkey k hm
    simp only [encodeHead, headLenOf, hm]
    by_cases h1 : h.len ≤ 125
    · rw [if_pos h1, if_pos h1]; simp [hk4]
    · by_cases h2 : h.len ≤ 65535
      · rw [if_neg h1, if_neg h1, if_pos h2, if_pos h2]; simp [beBytes_length, hk4]
      · rw [if_neg h1, if_neg h1, if_neg h2, if_neg h2]; simp [beBytes_length, hk4]

theorem headerNeed_encodeHead (h : FrameHead) :
    headerNeed (encodeHead h) = headLenOf h := by
  rcases hm : h.mask with _ | k
  · simp only [encodeHead, headLenOf, hm]
    by_cases h1 : h.len ≤ 125
    · rw [if_pos h1, if_pos h1, headerNeed_cons_eval]
      have e1 : (0 + h.len) % 128 = h.len := by omega
      rw [e1, extLenOf_small _ h1, if_neg (by omega)]
    · by_cases h2 : h.len ≤ 65535
      · rw [if_neg h1, if_neg h1, if_pos h2, if_pos h2, headerNeed_cons_eval]
        have e1 : (0 + 126) % 128 = 126 := by omega
        rw [e1, extLenOf, if_pos rfl, if_neg (by omega)]
      · rw [if_neg h1, if_neg h1, if_neg h2, if_neg h2, headerNeed_cons_eval]
        have e1 : (0 + 127) % 128 = 127 := by omega
        rw [e1, extLenOf, if_neg (by omega), if_pos rfl, if_neg (by omega)]
  · simp only [encodeHead, headLenOf, hm, Option.isSome_some]
    by_cases h1 : h.len ≤ 125
    · rw [if_pos h1, if_pos h1, headerNeed_cons_eval]
      have e1 : (128 + h.len) % 128 = h.len := by omega
      rw [e1, extLenOf_small _ h1, if_pos (by omega)]
    · by_cases h2 : h.len ≤ 65535
      · rw [if_neg h1, if_neg h1, if_pos h2, if_pos h2, headerNeed_cons_eval]
        have e1 : (128 + 126) % 128 = 126 := by omega
        rw [e1, extLenOf, if_pos rfl, if_pos (by omega)]
      · rw [if_neg h1, if_neg h1, if_neg h2, if_neg h2, headerNeed_cons_eval]
        have e1 : (128 + 127) % 128 = 127 := by omega
        rw [e1, extLenOf, if_neg (by omega), if_pos rfl, if_pos (by omega)]

theorem encodeHead_shape (h : FrameHead) : ∃ b0 b1 t, encodeHead h = b0 :: b1 :: t := by
  unfold encodeHead
  split_ifs <;> exact ⟨_, _, _, rfl⟩

theorem headerNeed_take (h : FrameHead) (j : Nat) (hj : 2 ≤ j) :
    headerNeed ((encodeHead h).take j) = headLenOf h := by
  obtain ⟨b0, b1, t, he⟩ := encodeHead_shape h
  obtain ⟨m, rfl⟩ : ∃ m, j = m + 2 := ⟨j - 2, by omega⟩
  rw [he]
  show headerNeed (b0 :: b1 :: t.take m) = headLenOf h
  rw [headerNeed_congr b0 b1 (t.take m) t, ← he, headerNeed_encodeHead]

theorem decodeHead_encodeHead (h : FrameHead) (hstd : h.opcode.std = true)
    (hkey : ∀ k, h.mask = some k → k.length = 4) (hlen : h.len < 2 ^ 64) :
    decodeHead (encodeHead h) = some h := by
  have he16 : encodeOp h.opcode < 16 := encodeOp_lt _ hstd
  have hfin : (decide (128 ≤ (if h.fin then 128 else 0) + encodeOp h.opcode)) = h.fin := by
    cases h.fin <;> simp <;> omega
  have h16 : ((if h.fin then 128 else 0) + encodeOp h.opcode) % 16 = encodeOp h.opcode := by
    cases h.fin <;> simp <;> omega
  have h128 : ¬ 16 ≤ ((if h.fin then 128 else 0) + encodeOp h.opcode) % 128 := by
    cases h.fin <;> simp <;> omega
  rcases hm : h.mask with _ | k
  · by_cases h1 : h.len ≤ 125
    · simp only [encodeHead, hm, if_pos h1, decodeHead]
      rw [if_neg h128]
      have e1 : (0 + h.len) % 128 = h.len := by omega
      rw [e1]
      simp only [extLenOf_small _ h1, if_neg (show ¬ (128 ≤ 0 + h.len) by omega),
        if_neg (show ¬ h.len = 126 by omega), if_neg (show ¬ h.len = 127 by omega),
        List.length_nil, if_pos (show (0 : Nat) = 0 + 0 by omega)]
      rw [h16, decodeOp_encodeOp _ hstd, hfin, ← hm]
      simp
    · by_cases h2 : h.len ≤ 65535
      · simp only [encodeHead, hm, if_neg h1, if_pos h2, decodeHead]
        rw [if_neg h128]
        have e1 : (0 + 126) % 128 = 126 := by omega
        rw [e1]
        simp only [extLenOf, if_pos (rfl : (126 : Nat) = 126),
          if_neg (show ¬ (126 : Nat) = 127 by omega),
          if_neg (show ¬ (128 ≤ 0 + 126) by omega), List.append_nil,
          beBytes_length, List.length_append, List.length_nil,
          if_pos (show (2 : Nat) + 0 = 2 + 0 by omega)]
        rw [h16, decodeOp_encodeOp _ hstd, hfin, ← hm]
        rw [List.take_of_length_le (by rw [beBytes_length]),
          beVal_beBytes_of_lt 2 h.len (by omega)]
        simp
      · simp only [encodeHead, hm, if_neg h1, if_neg h2, decodeHead]
        rw [if_neg h128]
        have e1 : (0 + 127) % 128 = 127 := by omega
        rw [e1]
        simp only [extLenOf, if_neg (show ¬ (127 : Nat) = 126 by omega),
          if_pos (rfl : (127 : Nat) = 127),
          if_neg (show ¬ (128 ≤ 0 + 127) by omega), List.append_nil,
          beBytes_length, List.length_append, List.length_nil,
          if_pos (show (8 : Nat) + 0 = 8 + 0 by omega)]
        rw [h16, decodeOp_encodeOp _ hstd, hfin, ← hm]
        rw [List.take_of_length_le (by rw [beBytes_length]),
          beVal_beBytes_of_lt 8 h.len (by omega)]
        simp
  · have hk4 : k.length = 4 := hkey k hm
    by_cases h1 : h.len ≤ 125
    · simp only [encodeHead, hm, if_pos h1, decodeHead]
      rw [if_neg h128]
      have e1 : (128 + h.len) % 128 = h.len := by omega
      rw [e1]
      simp only [extLenOf_small _ h1, if_pos (show (128 ≤ 128 + h.len) by omega),
        if_neg (show ¬ h.len = 126 by omega), if_neg (show ¬ h.len = 127 by omega),
        hk4, if_pos (show (4 : Nat) = 0 + 4 by omega), List.drop_zero]
      rw [h16, decodeOp_encodeOp _ hstd, hfin, ← hm]
      simp
    · by_cases h2 : h.len ≤ 65535
      · simp only [encodeHead, hm, if_neg h1, if_pos h2, decodeHead]
        rw [if_neg h128]
        have e1 : (128 + 126) % 128 = 126 := by omega
        rw [e1]
        have hblen : (beBytes 2 h.len ++ k).length = 2 + 4 := by
          simp [beBytes_length, hk4]
        simp only [extLenOf, if_pos (rfl : (126 : Nat) = 126),
          if_neg (show ¬ (126 : Nat) = 127 by omega),
          if_pos (show (128 ≤ 128 + 126) by omega), hblen,
          if_pos (rfl : (2 : Nat) + 4 = 2 + 4)]
        rw [h16, decodeOp_encodeOp _ hstd, hfin]
        have etake : (beBytes 2 h.len ++ k).take 2 = beBytes 2 h.len :=
          List.take_left' (beBytes_length 2 h.len)
        have edrop : (beBytes 2 h.len ++ k).drop 2 = k :=
          List.drop_left' (beBytes_length 2 h.len)
        rw [h16] at *
        have hval : beVal (beBytes 2 h.len) = h.len := beVal_beBytes_of_lt 2 h.len (by omega)
        simp [etake, edrop, hval, ← hm]
      · simp only [encodeHead, hm, if_neg h1, if_neg h2, decodeHead]
        rw [if_neg h128]
        have e1 : (128 + 127) % 128 = 127 := by omega
        rw [e1]
        have hblen : (beBytes 8 h.len ++ k).length = 8 + 4 := by
          simp [beBytes_length, hk4]
        simp only [extLenOf, if_neg (show ¬ (127 : Nat) = 126 by omega),
          if_pos (rfl : (127 : Nat) = 127),
          if_pos (show (128 ≤ 128 + 127) by omega), hblen,
          if_pos (rfl : (8 : Nat) + 4 = 8 + 4)]
        rw [h16, decodeOp_encodeOp _ hstd, hfin]
        have etake : (beBytes 8 h.len ++ k).take 8 = beBytes 8 h.len :=
          List.take_left' (beBytes_length 8 h.len)
        have edrop : (beBytes 8 h.len ++ k).drop 8 = k :=
          List.drop_left' (beBytes_length 8 h.len)
        rw [h16] at *
        have hval : beVal (beBytes 8 h.len) = h.len := beVal_beBytes_of_lt 8 h.len (by omega)
        simp [etake, edrop, hval, ← hm]

theorem writeOnce_start (mk : Option (List Nat)) (P : List Nat) (io : LimitRW)
    (hP : P ≠ []) :
    writeOnce mk WriteState.new io P =
      ⟨wStateH mk P (min (encodeHead (mkHead mk P)).length io.wlimit),
       { io with
           buf := io.buf ++
             (encodeHead (mkHead mk P)).take (min (encodeHead (mkHead mk P)).length io.wlimit)
           ops := io.ops + 1 },
       0, P, none⟩ := by
  have hne : P.isEmpty = false := by
    cases P with
    | nil => exact absurd rfl hP
    | cons a t => rfl
  simp only [writeOnce, WriteState.new, LimitRW.write, wStateH, mkHead]
  rw [if_neg (by simp), if_neg (by simp), if_neg (by simp [hne])]

theorem writeOnce_header (mk : Option (List Nat)) (P : List Nat) (io : LimitRW)
    (j : Nat) (hj : j < (encodeHead (mkHead mk P)).length) (hP : P ≠ []) :
    writeOnce mk (wStateH mk P j) io P =
      ⟨wStateH mk P (j + min ((encodeHead (mkHead mk P)).length - j) io.wlimit),
       { io with
           buf := io.buf ++
             ((encodeHead (mkHead mk P)).drop j).take
               (min ((encodeHead (mkHead mk P)).length - j) io.wlimit)
           ops := io.ops + 1 },
       0, P, none⟩ := by
  have hPlen : P.length ≠ 0 := by
    intro h0
    exact hP (List.length_eq_zero.mp h0)
  have hld : ((encodeHead (mkHead mk P)).drop j).length ≠ 0 := by
    rw [List.length_drop]; omega
  have hdropne : ((encodeHead (mkHead mk P)).drop j).isEmpty = false := by
    cases hD : (encodeHead (mkHead mk P)).drop j with
    | nil => rw [hD] at hld; simp at hld
    | cons a t => rfl
  simp only [writeOnce, wStateH, LimitRW.write]
  rw [if_neg (by simp)]
  rw [if_pos True.intro]
  rw [if_neg (by simp [hdropne])]
  rw [if_neg (by simp [hPlen])]
  rw [List.length_drop, List.drop_drop]

theorem wirePayload_length (mk : Option (List Nat)) (P : List Nat) :
    (wirePayload mk P).length = P.length := by
  cases mk with
  | none => rfl
  | some key => simp [wirePayload, maskBytes_length]

theorem wirePayload_drop (mk : Option (List Nat)) (P : List Nat) (k : Nat) :
    (wirePayload mk P).drop k =
      (match mk with
       | some key => maskBytes key k (P.drop k)
       | none => P.drop k) := by
  cases mk with
  | none => rfl
  | some key =>
      show (maskBytes key 0 P).drop k = maskBytes key k (P.drop k)
      rw [maskBytes_drop, Nat.zero_add]

theorem writeOnce_payload (mk : Option (List Nat)) (P : List Nat) (io : LimitRW)
    (k : Nat) (hk : k < P.length) :
    writeOnce mk (wStateP mk P k) io (P.drop k) =
      ⟨(if P.length - k - min (P.length - k) io.wlimit = 0 then WriteState.new
         else wStateP mk P (k + min (P.length - k) io.wlimit)),
       { io with
           buf := io.buf ++
             ((wirePayload mk P).drop k).take (min (P.length - k) io.wlimit)
           ops := io.ops + 1 },
       min (P.length - k) io.wlimit, P.drop k, none⟩ := by
  have hdl : (P.drop k).length = P.length - k := List.length_drop _ _
  have hseg : (P.drop k).take (P.length - k) = P.drop k := by
    rw [← hdl]; exact List.take_length _
  have hsegne : (P.drop k).isEmpty = false := by
    cases hD : P.drop k with
    | nil =>
        have := congrArg List.length hD
        rw [hdl] at this
        simp at this
        omega
    | cons a t => rfl
  simp only [writeOnce, wStateP, LimitRW.write]
  rw [if_neg (by simp)]
  rw [if_pos True.intro]
  rw [if_pos (show ([] : List Nat).isEmpty = true from rfl)]
  rw [hseg]
  rw [if_neg (by simp [hsegne])]
  cases mk with
  | none =>
      simp only [wirePayload]
      rw [hdl]
      by_cases hz : P.length - k - min (P.length - k) io.wlimit = 0
      · rw [if_pos hz, if_pos hz]
      · rw [if_neg hz, if_neg hz]
        have : P.length - k - min (P.length - k) io.wlimit =
            P.length - (k + min (P.length - k) io.wlimit) := by omega
        rw [this]
  | some key =>
      simp only [wirePayload]
      have hmask : maskBytes key k (P.drop k) = (maskBytes key 0 P).drop k := by
        rw [maskBytes_drop, Nat.zero_add]
      rw [hmask, List.length_drop, maskBytes_length]
      by_cases hz : P.length - k - min (P.length - k) io.wlimit = 0
      · rw [if_pos hz, if_pos hz]
      · rw [if_neg hz, if_neg hz]
        have : P.length - k - min (P.length - k) io.wlimit =
            P.length - (k + min (P.length - k) io.wlimit) := by omega
        rw [this]

theorem writeAll_phase2 (mk : Option (List Nat)) (P : List Nat) :
    ∀ fuel k io, k < P.length → 1 ≤ io.wlimit → P.length - k + 1 ≤ fuel →
    ∃ m, writeAll mk (wStateP mk P k) io (P.drop k) fuel =
      some (WriteState.new,
        { io with buf := io.buf ++ (wirePayload mk P).drop k, ops := io.ops + m }) := by
  intro fuel
  induction fuel with
  | zero => intro k io hk hwl hf; omega
  | succ f ih =>
      intro k io hk hwl hf
      have hsne : (P.drop k).isEmpty = false := by
        cases hD : P.drop k with
        | nil =>
            have := congrArg List.length hD
            rw [List.length_drop] at this
            simp at this
            omega
        | cons a t => rfl
      simp only [writeAll]
      rw [if_neg (by simp [hsne, wStateP])]
      rw [writeOnce_payload mk P io k hk]
      have hn1 : 1 ≤ min (P.length - k) io.wlimit := by
        have : 1 ≤ P.length - k := by omega
        omega
      have hnle : min (P.length - k) io.wlimit ≤ P.length - k := Nat.min_le_left _ _
      have hdd : (P.drop k).drop (min (P.length - k) io.wlimit) =
          P.drop (k + min (P.length - k) io.wlimit) := by
        rw [List.drop_drop]
      by_cases hdone : P.length - k - min (P.length - k) io.wlimit = 0
      · rw [if_pos hdone]
        simp only []
        have hkn : k + min (P.length - k) io.wlimit = P.length := by omega
        rw [hdd, hkn, List.drop_length]
        cases f with
        | zero => omega
        | succ f2 =>
            simp only [writeAll]
            rw [if_pos ⟨rfl, rfl⟩]
            refine ⟨1, ?_⟩
            have htake : ((wirePayload mk P).drop k).take (min (P.length - k) io.wlimit) =
                (wirePayload mk P).drop k := by
              have hl : ((wirePayload mk P).drop k).length = P.length - k := by
                rw [List.length_drop, wirePayload_length]
              have : min (P.length - k) io.wlimit = P.length - k := by omega
              rw [this, ← hl]
              exact List.take_length _
            rw [htake]
      · rw [if_neg hdone]
        simp only []
        rw [hdd]
        have hk2 : k + min (P.length - k) io.wlimit < P.length := by omega
        have hf2 : P.length - (k + min (P.length - k) io.wlimit) + 1 ≤ f := by omega
        obtain ⟨m2, hm2⟩ := ih (k + min (P.length - k) io.wlimit)
          { io with
              buf := io.buf ++
                ((wirePayload mk P).drop k).take (min (P.length - k) io.wlimit)
              ops := io.ops + 1 } hk2 hwl hf2
        rw [hm2]
        refine ⟨1 + m2, ?_⟩
        have hbuf : io.buf ++ ((wirePayload mk P).drop k).take (min (P.length - k) io.wlimit)
            ++ (wirePayload mk P).drop (k + min (P.length - k) io.wlimit) =
            io.buf ++ (wirePayload mk P).drop k := by
          rw [List.append_assoc]
          have hdd2 : (wirePayload mk P).drop (k + min (P.length - k) io.wlimit) =
              ((wirePayload mk P).drop k).drop (min (P.length - k) io.wlimit) := by
            rw [List.drop_drop]
          rw [hdd2, List.take_append_drop]
        simp only [hbuf]
        have hops : io.ops + 1 + m2 = io.ops + (1 + m2) := by omega
        rw [hops]

theorem writeAll_phase1 (mk : Option (List Nat)) (P : List Nat) :
    ∀ fuel j io, j < (encodeHead (mkHead mk P)).length → 1 ≤ io.wlimit → P ≠ [] →
    ((encodeHead (mkHead mk P)).length - j) + (P.length + 1) ≤ fuel →
    ∃ m, writeAll mk (wStateH mk P j) io P fuel =
      some (WriteState.new,
        { io with
            buf := io.buf ++ (encodeHead (mkHead mk P)).drop j ++ wirePayload mk P
            ops := io.ops + m }) := by
  intro fuel
  induction fuel with
  | zero => intro j io hj hwl hP hf; omega
  | succ f ih =>
      intro j io hj hwl hP hf
      have hP0 : 0 < P.length := by
        cases P with
        | nil => exact absurd rfl hP
        | cons a t => simp
      simp only [writeAll]
      rw [if_neg (by simp [wStateH])]
      rw [writeOnce_header mk P io j hj hP]
      simp only [List.drop_zero]
      have hn1 : 1 ≤ min ((encodeHead (mkHead mk P)).length - j) io.wlimit := by
        have : 1 ≤ (encodeHead (mkHead mk P)).length - j := by omega
        omega
      have hnle : min ((encodeHead (mkHead mk P)).length - j) io.wlimit ≤
          (encodeHead (mkHead mk P)).length - j := Nat.min_le_left _ _
      by_cases hj2 : j + min ((encodeHead (mkHead mk P)).length - j) io.wlimit <
          (encodeHead (mkHead mk P)).length
      · have hf2 : ((encodeHead (mkHead mk P)).length -
            (j + min ((encodeHead (mkHead mk P)).length - j) io.wlimit)) +
            (P.length + 1) ≤ f := by omega
        obtain ⟨m2, hm2⟩ := ih (j + min ((encodeHead (mkHead mk P)).length - j) io.wlimit)
          { io with
              buf := io.buf ++
                ((encodeHead (mkHead mk P)).drop j).take
                  (min ((encodeHead (mkHead mk P)).length - j) io.wlimit)
              ops := io.ops + 1 } hj2 hwl hP hf2
        rw [hm2]
        refine ⟨1 + m2, ?_⟩
        have hbuf : io.buf ++
            ((encodeHead (mkHead mk P)).drop j).take
              (min ((encodeHead (mkHead mk P)).length - j) io.wlimit) ++
            (encodeHead (mkHead mk P)).drop
              (j + min ((encodeHead (mkHead mk P)).length - j) io.wlimit) =
            io.buf ++ (encodeHead (mkHead mk P)).drop j := by
          rw [List.append_assoc]
          have hdd2 : (encodeHead (mkHead mk P)).drop
              (j + min ((encodeHead (mkHead mk P)).length - j) io.wlimit) =
              ((encodeHead (mkHead mk P)).drop j).drop
                (min ((encodeHead (mkHead mk P)).length - j) io.wlimit) := by
            rw [List.drop_drop]
          rw [hdd2, List.take_append_drop]
        rw [hbuf]
        have hops : io.ops + 1 + m2 = io.ops + (1 + m2) := by omega
        rw [hops]
      · have hjeq : j + min ((encodeHead (mkHead mk P)).length - j) io.wlimit =
            (encodeHead (mkHead mk P)).length := by omega
        rw [hjeq]
        have hstate : wStateH mk P (encodeHead (mkHead mk P)).length = wStateP mk P 0 := by
          simp [wStateH, wStateP, List.drop_length]
        rw [hstate]
        have hf2 : P.length - 0 + 1 ≤ f := by omega
        obtain ⟨m2, hm2⟩ := writeAll_phase2 mk P f 0
          { io with
              buf := io.buf ++
                ((encodeHead (mkHead mk P)).drop j).take
                  (min ((encodeHead (mkHead mk P)).length - j) io.wlimit)
              ops := io.ops + 1 } hP0 hwl hf2
        simp only [List.drop_zero] at hm2
        rw [hm2]
        refine ⟨1 + m2, ?_⟩
        have htake : ((encodeHead (mkHead mk P)).drop j).take
            (min ((encodeHead (mkHead mk P)).length - j) io.wlimit) =
            (encodeHead (mkHead mk P)).drop j := by
          have hl : ((encodeHead (mkHead mk P)).drop j).length =
              (encodeHead (mkHead mk P)).length - j := List.length_drop _ _
          have : min ((encodeHead (mkHead mk P)).length - j) io.wlimit =
              (encodeHead (mkHead mk P)).length - j := by omega
          rw [this, ← hl]
          exact List.take_length _
        rw [htake]
        have hops : io.ops + 1 + m2 = io.ops + (1 + m2) := by omega
        rw [hops]

theorem encodeHead_pos (h : FrameHead) : 2 ≤ (encodeHead h).length := by
  obtain ⟨b0, b1, t, he⟩ := encodeHead_shape h
  rw [he]
  simp

theorem writeAll_main (mk : Option (List Nat)) (P : List Nat) :
    ∀ fuel io, P ≠ [] → 1 ≤ io.wlimit →
    (encodeHead (mkHead mk P)).length + P.length + 2 ≤ fuel →
    ∃ m, writeAll mk WriteState.new io P fuel =
      some (WriteState.new,
        { io with buf := io.buf ++ wireFrame mk P, ops := io.ops + m }) := by
  intro fuel io hP hwl hf
  have hP0 : 0 < P.length := by
    cases P with
    | nil => exact absurd rfl hP
    | cons a t => simp
  have hH2 : 2 ≤ (encodeHead (mkHead mk P)).length := encodeHead_pos _
  have hne : P.isEmpty = false := by
    cases P with
    | nil => exact absurd rfl hP
    | cons a t => rfl
  cases fuel with
  | zero => omega
  | succ f =>
      simp only [writeAll]
      rw [if_neg (by simp [hne])]
      rw [writeOnce_start mk P io hP]
      simp only [List.drop_zero]
      have hn1 : 1 ≤ min (encodeHead (mkHead mk P)).length io.wlimit := by
        omega
      by_cases hj2 : min (encodeHead (mkHead mk P)).length io.wlimit <
          (encodeHead (mkHead mk P)).length
      · have hf2 : ((encodeHead (mkHead mk P)).length -
            min (encodeHead (mkHead mk P)).length io.wlimit) + (P.length + 1) ≤ f := by
          omega
        obtain ⟨m2, hm2⟩ := writeAll_phase1 mk P f
          (min (encodeHead (mkHead mk P)).length io.wlimit)
          { io with
              buf := io.buf ++
                (encodeHead (mkHead mk P)).take
                  (min (encodeHead (mkHead mk P)).length io.wlimit)
              ops := io.ops + 1 } hj2 hwl hP hf2
        rw [hm2]
        refine ⟨1 + m2, ?_⟩
        have hbuf : io.buf ++
            (encodeHead (mkHead mk P)).take
              (min (encodeHead (mkHead mk P)).length io.wlimit) ++
            (encodeHead (mkHead mk P)).drop
              (min (encodeHead (mkHead mk P)).length io.wlimit) ++ wirePayload mk P =
            io.buf ++ wireFrame mk P := by
          rw [List.append_assoc io.buf, List.take_append_drop, wireFrame,
            List.append_assoc]
        rw [hbuf]
        have hops : io.ops + 1 + m2 = io.ops + (1 + m2) := by omega
        rw [hops]
      · have hjeq : min (encodeHead (mkHead mk P)).length io.wlimit =
            (encodeHead (mkHead mk P)).length := by omega
        rw [hjeq]
        have hstate : wStateH mk P (encodeHead (mkHead mk P)).length = wStateP mk P 0 := by
          simp [wStateH, wStateP, List.drop_length]
        rw [hstate, List.take_length]
        have hf2 : P.length - 0 + 1 ≤ f := by omega
        obtain ⟨m2, hm2⟩ := writeAll_phase2 mk P f 0
          { io with buf := io.buf ++ encodeHead (mkHead mk P), ops := io.ops + 1 }
          hP0 hwl hf2
        simp only [List.drop_zero] at hm2
        rw [hm2]
        refine ⟨1 + m2, ?_⟩
        have hbuf : io.buf ++ encodeHead (mkHead mk P) ++ wirePayload mk P =
            io.buf ++ wireFrame mk P := by
          rw [wireFrame, ← List.append_assoc]
        rw [hbuf]
        have hops : io.ops + 1 + m2 = io.ops + (1 + m2) := by omega
        rw [hops]

theorem isEmpty_false_of_length_ne (l : List Nat) (h : l.length ≠ 0) :
    l.isEmpty = false := by
  cases l with
  | nil => simp at h
  | cons a t => rfl

theorem headerNeed_short (l : List Nat) (h : l.length < 2) : headerNeed l = 2 := by
  match l, h with
  | [], _ => rfl
  | [a], _ => rfl

theorem mkHead_keylen (mk : Option (List Nat)) (P : List Nat)
    (hmk : ∀ key, mk = some key → key.length = 4) :
    ∀ k, (mkHead mk P).mask = some k → k.length = 4 := by
  intro k hk
  exact hmk k hk

theorem readOnce_header (mk : Option (List Nat)) (P : List Nat) (io : LimitRW)
    (cap j : Nat) (hmk : ∀ key, mk = some key → key.length = 4)
    (hlen : P.length < 2 ^ 64) (hP : P ≠ [])
    (hrf : io.rfail = false) (hbuf : io.buf = wireFrame mk P) (hcur : io.cursor = j)
    (hj : j < (encodeHead (mkHead mk P)).length) (hrl : 1 ≤ io.rlimit)
    (hcap : 1 ≤ cap) :
    ∃ n, 1 ≤ n ∧ j + n ≤ (encodeHead (mkHead mk P)).length ∧
      readOnce mk.isSome (rStateH (encodeHead (mkHead mk P)) j) io cap =
        ⟨(if j + n = (encodeHead (mkHead mk P)).length then rStateP mk P 0
           else rStateH (encodeHead (mkHead mk P)) (j + n)),
         { io with cursor := io.cursor + n, ops := io.ops + 1 }, [], none⟩ := by
  have hkey4 := mkHead_keylen mk P hmk
  have hP0 : 0 < P.length := by
    cases P with
    | nil => exact absurd rfl hP
    | cons a t => simp
  have hH2 : 2 ≤ (encodeHead (mkHead mk P)).length := encodeHead_pos _
  have htl : ((encodeHead (mkHead mk P)).take j).length = j := by
    rw [List.length_take]
    omega
  have hneed : headerNeed ((encodeHead (mkHead mk P)).take j) =
      (if j < 2 then 2 else (encodeHead (mkHead mk P)).length) := by
    by_cases h2 : j < 2
    · rw [if_pos h2, headerNeed_short _ (by omega)]
    · rw [if_neg h2, headerNeed_take _ _ (by omega), ← encodeHead_length _ hkey4]
  refine ⟨min (headerNeed ((encodeHead (mkHead mk P)).take j) - j) io.rlimit, ?_, ?_, ?_⟩
  · rw [hneed]
    by_cases h2 : j < 2
    · rw [if_pos h2]; omega
    · rw [if_neg h2]; omega
  · rw [hneed]
    by_cases h2 : j < 2
    · rw [if_pos h2]
      have : min (2 - j) io.rlimit ≤ 2 - j := Nat.min_le_left _ _
      omega
    · rw [if_neg h2]
      have : min ((encodeHead (mkHead mk P)).length - j) io.rlimit ≤
          (encodeHead (mkHead mk P)).length - j := Nat.min_le_left _ _
      omega
  · simp only [readOnce, rStateH, ReadState.new]
    rw [if_neg (by simp), if_neg (by simp)]
    rw [if_pos (by rw [htl, hneed]; split_ifs <;> omega)]
    rw [if_neg (show ¬(cap = 0) by omega)]
    rw [htl]
    simp only [LimitRW.read]
    rw [if_neg (by rw [hrf]; simp)]
    have havail : io.buf.length - io.cursor =
        (encodeHead (mkHead mk P)).length + P.length - j := by
      rw [hbuf, hcur, wireFrame, List.length_append, wirePayload_length]
    have hqle : headerNeed ((encodeHead (mkHead mk P)).take j) - j ≤
        (encodeHead (mkHead mk P)).length - j := by
      rw [hneed]; split_ifs <;> omega
    have hgotn : min (min (headerNeed ((encodeHead (mkHead mk P)).take j) - j) io.rlimit)
        (io.buf.length - io.cursor) =
        min (headerNeed ((encodeHead (mkHead mk P)).take j) - j) io.rlimit := by
      rw [havail]
      have h1 : min (headerNeed ((encodeHead (mkHead mk P)).take j) - j) io.rlimit ≤
          (encodeHead (mkHead mk P)).length - j := by
        have := Nat.min_le_left (headerNeed ((encodeHead (mkHead mk P)).take j) - j) io.rlimit
        omega
      omega
    rw [hgotn]
    have hdle : j ≤ (encodeHead (mkHead mk P)).length := by omega
    have hnle2 : min (headerNeed ((encodeHead (mkHead mk P)).take j) - j) io.rlimit ≤
        (encodeHead (mkHead mk P)).length - j := by
      have := Nat.min_le_left (headerNeed ((encodeHead (mkHead mk P)).take j) - j) io.rlimit
      omega
    have hgot : (io.buf.drop io.cursor).take
        (min (headerNeed ((encodeHead (mkHead mk P)).take j) - j) io.rlimit) =
        ((encodeHead (mkHead mk P)).drop j).take
          (min (headerNeed ((encodeHead (mkHead mk P)).take j) - j) io.rlimit) := by
      rw [hbuf, hcur, wireFrame, List.drop_append_eq_append_drop,
        Nat.sub_eq_zero_of_le hdle, List.drop_zero, List.take_append_eq_append_take]
      have hz : min (headerNeed ((encodeHead (mkHead mk P)).take j) - j) io.rlimit -
          ((encodeHead (mkHead mk P)).drop j).length = 0 := by
        rw [List.length_drop]
        omega
      rw [hz, List.take_zero, List.append_nil]
    rw [hgot]
    simp only []
    have hn1 : 1 ≤ min (headerNeed ((encodeHead (mkHead mk P)).take j) - j) io.rlimit := by
      have hq1 : 1 ≤ headerNeed ((encodeHead (mkHead mk P)).take j) - j := by
        rw [hneed]; split_ifs <;> omega
      omega
    have hglen : (((encodeHead (mkHead mk P)).drop j).take
        (min (headerNeed ((encodeHead (mkHead mk P)).take j) - j) io.rlimit)).length =
        min (headerNeed ((encodeHead (mkHead mk P)).take j) - j) io.rlimit := by
      rw [List.length_take, List.length_drop]
      omega
    rw [if_neg (by rw [isEmpty_false_of_length_ne _ (by rw [hglen]; omega)]; simp)]
    rw [← List.take_add]
    have htl2 : ((encodeHead (mkHead mk P)).take
        (j + min (headerNeed ((encodeHead (mkHead mk P)).take j) - j) io.rlimit)).length =
        j + min (headerNeed ((encodeHead (mkHead mk P)).take j) - j) io.rlimit := by
      rw [List.length_take]
      omega
    have hneed2 : headerNeed ((encodeHead (mkHead mk P)).take
        (j + min (headerNeed ((encodeHead (mkHead mk P)).take j) - j) io.rlimit)) =
        (if j + min (headerNeed ((encodeHead (mkHead mk P)).take j) - j) io.rlimit < 2
         then 2 else (encodeHead (mkHead mk P)).length) := by
      by_cases h2 : j + min (headerNeed ((encodeHead (mkHead mk P)).take j) - j) io.rlimit < 2
      · rw [if_pos h2, headerNeed_short _ (by rw [htl2]; omega)]
      · rw [if_neg h2, headerNeed_take _ _ (by omega), ← encodeHead_length _ hkey4]
    by_cases hdone : j + min (headerNeed ((encodeHead (mkHead mk P)).take j) - j) io.rlimit =
        (encodeHead (mkHead mk P)).length
    · rw [if_pos hdone]
      have hcond : ¬(((encodeHead (mkHead mk P)).take
          (j + min (headerNeed ((encodeHead (mkHead mk P)).take j) - j) io.rlimit)).length <
          headerNeed ((encodeHead (mkHead mk P)).take
            (j + min (headerNeed ((encodeHead (mkHead mk P)).take j) - j) io.rlimit))) := by
        rw [htl2, hneed2]
        rw [if_neg (show ¬(j + min (headerNeed ((encodeHead (mkHead mk P)).take j) - j)
          io.rlimit < 2) by omega)]
        omega
      rw [if_neg hcond]
      rw [hdone, List.take_length]
      have hstd : (mkHead mk P).opcode.std = true := rfl
      have hdec : decodeHead (encodeHead (mkHead mk P)) = some (mkHead mk P) :=
        decodeHead_encodeHead _ hstd hkey4 hlen
      simp only [processHeader, hdec]
      rw [if_neg (show ¬((mkHead mk P).mask.isSome ≠ mk.isSome) by simp [mkHead])]
      rw [if_neg (show ¬((mkHead mk P).opcode.std = false) by simp [mkHead, OpCode.std])]
      rw [if_neg (show ¬((mkHead mk P).opcode.isCtrl = true) by
        simp [mkHead, OpCode.isCtrl])]
      rw [if_neg (show ¬((mkHead mk P).len = 0) from by
        simp only [mkHead]
        omega)]
      simp [rStateP, ReadState.new, mkHead]
    · rw [if_neg hdone]
      rw [if_pos (by rw [htl2, hneed2]; split_ifs <;> omega)]

theorem readOnce_payload (mk : Option (List Nat)) (P : List Nat) (io : LimitRW)
    (cap k : Nat) (hk : k < P.length)
    (hrf : io.rfail = false) (hbuf : io.buf = wireFrame mk P)
    (hcur : io.cursor = (encodeHead (mkHead mk P)).length + k)
    (hrl : 1 ≤ io.rlimit) (hcap : 1 ≤ cap) :
    ∃ n, 1 ≤ n ∧ k + n ≤ P.length ∧
      readOnce mk.isSome (rStateP mk P k) io cap =
        ⟨(if k + n = P.length then rStateDone else rStateP mk P (k + n)),
         { io with cursor := io.cursor + n, ops := io.ops + 1 },
         (P.drop k).take n, none⟩ := by
  refine ⟨min (min cap (P.length - k)) io.rlimit, by omega, by
    have := Nat.min_le_left (min cap (P.length - k)) io.rlimit
    have := Nat.min_le_right cap (P.length - k)
    omega, ?_⟩
  simp only [readOnce, rStateP, ReadState.new]
  rw [if_neg (by simp), if_neg (by simp)]
  rw [if_neg (show ¬((mkHead mk P).opcode.isCtrl = true) by simp [mkHead, OpCode.isCtrl])]
  rw [if_neg (show ¬(min cap (P.length - k) = 0) by omega)]
  simp only [LimitRW.read]
  rw [if_neg (by rw [hrf]; simp)]
  have havail : io.buf.length - io.cursor = P.length - k := by
    rw [hbuf, hcur, wireFrame, List.length_append, wirePayload_length]
    omega
  have hgotn : min (min (min cap (P.length - k)) io.rlimit) (io.buf.length - io.cursor) =
      min (min cap (P.length - k)) io.rlimit := by
    rw [havail]
    omega
  rw [hgotn]
  have hidx : (encodeHead (mkHead mk P)).length + k - (encodeHead (mkHead mk P)).length =
      k := by omega
  have hslice : (io.buf.drop io.cursor).take (min (min cap (P.length - k)) io.rlimit) =
      ((wirePayload mk P).drop k).take (min (min cap (P.length - k)) io.rlimit) := by
    rw [hbuf, hcur, wireFrame, List.drop_append_eq_append_drop,
      List.drop_eq_nil_of_le (by omega), List.nil_append, hidx]
  rw [hslice]
  simp only []
  have hlen2 : (((wirePayload mk P).drop k).take
      (min (min cap (P.length - k)) io.rlimit)).length =
      min (min cap (P.length - k)) io.rlimit := by
    rw [List.length_take, List.length_drop, wirePayload_length]
    omega
  rw [if_neg (by rw [isEmpty_false_of_length_ne _ (by rw [hlen2]; omega)]; simp)]
  have hout : unmaskChunk (mkHead mk P) k
      (((wirePayload mk P).drop k).take (min (min cap (P.length - k)) io.rlimit)) =
      (P.drop k).take (min (min cap (P.length - k)) io.rlimit) := by
    cases mk with
    | none => simp [unmaskChunk, mkHead, wirePayload]
    | some key =>
        simp only [unmaskChunk, mkHead, wirePayload]
        rw [maskBytes_drop, Nat.zero_add, maskBytes_take, maskBytes_maskBytes]
  rw [hout, hlen2]
  by_cases hdone : k + min (min cap (P.length - k)) io.rlimit = P.length
  · rw [if_pos (show P.length - k - min (min cap (P.length - k)) io.rlimit = 0 by
      omega), if_pos hdone]
    simp [rStateDone, ReadState.new]
  · rw [if_neg (show ¬(P.length - k - min (min cap (P.length - k)) io.rlimit = 0) by
      omega), if_neg hdone]
    have hsub : P.length - k - min (min cap (P.length - k)) io.rlimit =
        P.length - (k + min (min cap (P.length - k)) io.rlimit) := by omega
    rw [hsub]

theorem readAll_phase2 (mk : Option (List Nat)) (P : List Nat) :
    ∀ fuel k io cap, k < P.length → io.rfail = false → io.buf = wireFrame mk P →
    io.cursor = (encodeHead (mkHead mk P)).length + k → 1 ≤ io.rlimit → 1 ≤ cap →
    (P.length - k) + 1 ≤ fuel →
    ∃ m, readAll mk.isSome (rStateP mk P k) io cap fuel =
      some (rStateDone,
        { io with cursor := io.cursor + (P.length - k), ops := io.ops + m },
        P.drop k) := by
  intro fuel
  induction fuel with
  | zero => intro k io cap hk hrf hbuf hcur hrl hcap hf; omega
  | succ f ih =>
      intro k io cap hk hrf hbuf hcur hrl hcap hf
      have hblen : io.buf.length = (encodeHead (mkHead mk P)).length + P.length := by
        rw [hbuf, wireFrame, List.length_append, wirePayload_length]
      simp only [readAll]
      rw [if_neg (show ¬(io.cursor = io.buf.length) by rw [hcur, hblen]; omega)]
      obtain ⟨n, hn1, hkn, hstep⟩ := readOnce_payload mk P io cap k hk hrf hbuf hcur hrl hcap
      rw [hstep]
      simp only []
      by_cases hdone : k + n = P.length
      · rw [if_pos hdone]
        cases f with
        | zero => omega
        | succ f2 =>
            simp only [readAll]
            rw [if_pos (show
              ({ io with cursor := io.cursor + n, ops := io.ops + 1 } : LimitRW).cursor =
              ({ io with cursor := io.cursor + n, ops := io.ops + 1 } : LimitRW).buf.length
              by simp only []; rw [hcur, hblen]; omega)]
            simp only []
            refine ⟨1, ?_⟩
            have htake : (P.drop k).take n = P.drop k := by
              have hl : (P.drop k).length = P.length - k := List.length_drop _ _
              have hn : n = P.length - k := by omega
              rw [hn, ← hl]
              exact List.take_length _
            rw [htake, List.append_nil]
            have hc2 : io.cursor + n = io.cursor + (P.length - k) := by omega
            rw [hc2]
      · rw [if_neg hdone]
        have hk2 : k + n < P.length := by omega
        obtain ⟨m2, hm2⟩ := ih (k + n)
          { io with cursor := io.cursor + n, ops := io.ops + 1 } cap hk2
          hrf hbuf (by simp only []; rw [hcur]; omega) hrl hcap (by omega)
        rw [hm2]
        simp only []
        refine ⟨1 + m2, ?_⟩
        have hout : (P.drop k).take n ++ P.drop (k + n) = P.drop k := by
          have hdd : P.drop (k + n) = (P.drop k).drop n := by
            rw [List.drop_drop]
          rw [hdd, List.take_append_drop]
        rw [hout]
        have hc2 : io.cursor + n + (P.length - (k + n)) = io.cursor + (P.length - k) := by
          omega
        have ho2 : io.ops + 1 + m2 = io.ops + (1 + m2) := by omega
        rw [hc2, ho2]

theorem readAll_phase1 (mk : Option (List Nat)) (P : List Nat)
    (hmk : ∀ key, mk = some key → key.length = 4)
    (hlen : P.length < 2 ^ 64) (hP : P ≠ []) :
    ∀ fuel j io cap, j < (encodeHead (mkHead mk P)).length → io.rfail = false →
    io.buf = wireFrame mk P → io.cursor = j → 1 ≤ io.rlimit → 1 ≤ cap →
    ((encodeHead (mkHead mk P)).length - j) + (P.length + 1) + 1 ≤ fuel →
    ∃ m, readAll mk.isSome (rStateH (encodeHead (mkHead mk P)) j) io cap fuel =
      some (rStateDone,
        { io with
            cursor := io.cursor + ((encodeHead (mkHead mk P)).length - j + P.length)
            ops := io.ops + m },
        P) := by
  intro fuel
  induction fuel with
  | zero => intro j io cap hj hrf hbuf hcur hrl hcap hf; omega
  | succ f ih =>
      intro j io cap hj hrf hbuf hcur hrl hcap hf
      have hP0 : 0 < P.length := by
        cases P with
        | nil => exact absurd rfl hP
        | cons a t => simp
      have hblen : io.buf.length = (encodeHead (mkHead mk P)).length + P.length := by
        rw [hbuf, wireFrame, List.length_append, wirePayload_length]
      simp only [readAll]
      rw [if_neg (show ¬(io.cursor = io.buf.length) by rw [hcur, hblen]; omega)]
      obtain ⟨n, hn1, hjn, hstep⟩ :=
        readOnce_header mk P io cap j hmk hlen hP hrf hbuf hcur hj hrl hcap
      rw [hstep]
      simp only []
      by_cases hdone : j + n = (encodeHead (mkHead mk P)).length
      · rw [if_pos hdone]
        obtain ⟨m2, hm2⟩ := readAll_phase2 mk P f 0
          { io with cursor := io.cursor + n, ops := io.ops + 1 } cap hP0
          hrf hbuf (by simp only []; rw [hcur]; omega) hrl hcap (by omega)
        rw [hm2]
        simp only []
        refine ⟨1 + m2, ?_⟩
        rw [List.drop_zero, List.nil_append]
        have hc2 : io.cursor + n + (P.length - 0) =
            io.cursor + ((encodeHead (mkHead mk P)).length - j + P.length) := by
          omega
        have ho2 : io.ops + 1 + m2 = io.ops + (1 + m2) := by omega
        rw [hc2, ho2]
      · rw [if_neg hdone]
        have hj2 : j + n < (encodeHead (mkHead mk P)).length := by omega
        obtain ⟨m2, hm2⟩ := ih (j + n)
          { io with cursor := io.cursor + n, ops := io.ops + 1 } cap hj2
          hrf hbuf (by simp only []; omega) hrl hcap (by omega)
        rw [hm2]
        simp only []
        refine ⟨1 + m2, ?_⟩
        rw [List.nil_append]
        have hc2 : io.cursor + n +
            ((encodeHead (mkHead mk P)).length - (j + n) + P.length) =
            io.cursor + ((encodeHead (mkHead mk P)).length - j + P.length) := by
          omega
        have ho2 : io.ops + 1 + m2 = io.ops + (1 + m2) := by omega
        rw [hc2, ho2]

/-- C1: round trip through the stream: whatever one role's write path puts
on the wire (for any per-operation read/write limits at least 1 and any
caller buffer capacity at least 1), the opposite role's read path
reconstructs the original payload exactly, reporting opcode binary and
fin true. -/
theorem stream_round_trip (mk : Option (List Nat)) (P : List Nat) (rl wl cap : Nat)
    (hmk : (mk.getD [0, 0, 0, 0]).length = 4) (hlen : P.length < 2 ^ 64)
    (hrl : 1 ≤ rl) (hwl : 1 ≤ wl) (hcap : 1 ≤ cap) :
    ∃ wfuel rfuel sw io1 sr io2 out,
      writeAll mk WriteState.new ⟨[], rl, wl, 0, 0, false⟩ P wfuel = some (sw, io1) ∧
      readAll mk.isSome ReadState.new io1 cap rfuel = some (sr, io2, out) ∧
      out = P ∧ (P ≠ [] → sr.opcode = OpCode.binary ∧ sr.fin = true) := by
  have hmk2 : ∀ key, mk = some key → key.length = 4 := by
    intro key hkey
    rw [hkey] at hmk
    simpa using hmk
  by_cases hP : P = []
  · subst hP
    refine ⟨1, 1, WriteState.new, ⟨[], rl, wl, 0, 0, false⟩, ReadState.new,
      ⟨[], rl, wl, 0, 0, false⟩, [], ?_, ?_, rfl, by intro h; exact absurd rfl h⟩
    · simp only [writeAll]
      rw [if_pos ⟨rfl, rfl⟩]
    · simp only [readAll]
      rw [if_pos (show (0 : Nat) = ([] : List Nat).length from rfl)]
  · obtain ⟨m, hw⟩ := writeAll_main mk P
      ((encodeHead (mkHead mk P)).length + P.length + 2)
      ⟨[], rl, wl, 0, 0, false⟩ hP (by simpa using hwl) (by omega)
    simp only [] at hw
    have hnew : (ReadState.new : ReadState) = rStateH (encodeHead (mkHead mk P)) 0 := rfl
    have hH2 : 2 ≤ (encodeHead (mkHead mk P)).length := encodeHead_pos _
    obtain ⟨m2, hr⟩ := readAll_phase1 mk P hmk2 hlen hP
      ((encodeHead (mkHead mk P)).length + P.length + 2) 0
      (⟨[] ++ wireFrame mk P, rl, wl, 0, 0 + m, false⟩ : LimitRW)
      cap (by omega) rfl (List.nil_append _) rfl (by simpa using hrl)
      hcap (by omega)
    rw [← hnew] at hr
    exact ⟨(encodeHead (mkHead mk P)).length + P.length + 2,
      (encodeHead (mkHead mk P)).length + P.length + 2,
      WriteState.new, _, rStateDone, _, P, hw, hr, rfl,
      fun _ => ⟨rfl, rfl⟩⟩

set_option maxRecDepth 4000 in
theorem stream_round_trip_witness :
    (((some [1, 2, 3, 4] : Option (List Nat)).getD [0, 0, 0, 0]).length = 4) ∧
    ((List.replicate 300 65).length < 2 ^ 64) ∧ 1 ≤ 19 ∧ 1 ≤ 37 ∧ 1 ≤ 8192 ∧
    (∃ wfuel rfuel sw io1 sr io2 out,
      writeAll (some [1, 2, 3, 4]) WriteState.new ⟨[], 19, 37, 0, 0, false⟩
        (List.replicate 300 65) wfuel = some (sw, io1) ∧
      readAll (some [1, 2, 3, 4] : Option (List Nat)).isSome ReadState.new io1 8192
        rfuel = some (sr, io2, out) ∧
      out = List.replicate 300 65 ∧
      (List.replicate 300 65 ≠ [] → sr.opcode = OpCode.binary ∧ sr.fin = true)) :=
  ⟨by decide, by decide, by decide, by decide, by decide,
   stream_round_trip (some [1, 2, 3, 4]) (List.replicate 300 65) 19 37 8192
     (by decide) (by decide) (by decide) (by decide) (by decide)⟩

/-- C8: a write call never mutates the caller's buffer: the payload slice
handed back after the call is exactly the one passed in, for every state,
I/O source and payload; masking happens on a scratch copy only. -/
theorem write_preserves_caller_buffer (mk : Option (List Nat)) (s : WriteState)
    (io : LimitRW) (payload : List Nat) :
    (writeOnce mk s io payload).buf = payload := by
  unfold writeOnce
  repeat' split
  all_goals simp only []
  all_goals repeat' split
  all_goals rfl

/-- C10: construction is inert and role-independent: `Stream::new` stores
the IO source unchanged (`as_ref`/`as_mut` return exactly it), performs no
operation on it, and initializes the three state machines to the same fixed
initial states for every role tag. -/
theorem construction_inert : ∀ (A R1 R2 : Type) (io : A),
    (Stream.new A R1 io).as_ref = io ∧ (Stream.new A R1 io).as_mut = io ∧
    (Stream.new A R1 io).read_state = ReadState.new ∧
    (Stream.new A R1 io).write_state = WriteState.new ∧
    (Stream.new A R1 io).heartbeat = HeartBeat.new ∧
    (Stream.new A R1 io).read_state = (Stream.new A R2 io).read_state ∧
    (Stream.new A R1 io).write_state = (Stream.new A R2 io).write_state ∧
    (Stream.new A R1 io).heartbeat = (Stream.new A R2 io).heartbeat := by
  intro A R1 R2 io
  exact ⟨rfl, rfl, rfl, rfl, rfl, rfl, rfl, rfl⟩

/-- C6: heartbeat contract: a ping is due exactly when no ping is
outstanding and the interval has elapsed since the last ping; the
connection is stale exactly when an outstanding ping has waited longer
than the pong timeout; receiving a pong clears staleness. -/
theorem heartbeat_contract : ∀ (hb : HeartBeat) (now now2 : Nat),
    (hb.should_send_ping now = true ↔
      (hb.outstanding = false ∧ ∀ t, hb.lastPingSent = some t → hb.interval ≤ now - t)) ∧
    (hb.is_stale now = true ↔
      (hb.outstanding = true ∧ ∃ t, hb.lastPingSent = some t ∧ hb.timeout < now - t)) ∧
    (hb.on_pong_received now2).is_stale now = false ∧
    (hb.note_ping_sent now2).outstanding = true := by
  intro hb now now2
  refine ⟨?_, ?_, ?_, rfl⟩
  · cases ho : hb.outstanding <;>
      cases hl : hb.lastPingSent <;>
        simp [HeartBeat.should_send_ping, ho, hl]
  · cases ho : hb.outstanding <;>
      cases hl : hb.lastPingSent <;>
        simp [HeartBeat.is_stale, ho, hl]
  · cases hl : hb.lastPingSent <;>
      simp [HeartBeat.is_stale, HeartBeat.on_pong_received, hl]

theorem read_ops (io : LimitRW) (n : Nat) : ((io.read n).1).ops = io.ops + 1 := by
  unfold LimitRW.read
  split_ifs <;> rfl

theorem write_ops (io : LimitRW) (b : List Nat) : ((io.write b).1).ops = io.ops + 1 := rfl

theorem processHeader_io (r : Bool) (s : ReadState) (b : List Nat) (io : LimitRW) :
    (processHeader r s b io).io = io := by
  unfold processHeader
  repeat' split
  all_goals rfl

/-- C2: at most one underlying I/O operation per call: a single call to the
read entry point, and a single call to the write entry point, performs
exactly zero or one operation on the underlying source (counted by the
mock's `ops` field), for every state and every input. -/
theorem at_most_one_operation_per_call :
    (∀ (reqMask : Bool) (s : ReadState) (io : LimitRW) (cap : Nat),
      (readOnce reqMask s io cap).io.ops = io.ops ∨
      (readOnce reqMask s io cap).io.ops = io.ops + 1) ∧
    (∀ (mk : Option (List Nat)) (s : WriteState) (io : LimitRW) (payload : List Nat),
      (writeOnce mk s io payload).io.ops = io.ops ∨
      (writeOnce mk s io payload).io.ops = io.ops + 1) := by
  constructor
  · intro reqMask s io cap
    unfold readOnce
    by_cases h1 : s.poisoned = true
    · rw [if_pos h1]; exact Or.inl rfl
    · rw [if_neg h1]
      by_cases h2 : s.closeObserved = true
      · rw [if_pos h2]; exact Or.inl rfl
      · rw [if_neg h2]
        cases hh : s.head with
        | none =>
            simp only []
            by_cases h3 : s.headBuf.length < headerNeed s.headBuf
            · rw [if_pos h3]
              by_cases hc : cap = 0
              · rw [if_pos hc]; exact Or.inl rfl
              · rw [if_neg hc]
                rcases hio : io.read (headerNeed s.headBuf - s.headBuf.length) with ⟨io1, g⟩
                have hops1 : io1.ops = io.ops + 1 := by
                  have := read_ops io (headerNeed s.headBuf - s.headBuf.length)
                  rw [hio] at this
                  exact this
                cases g with
                | none => exact Or.inr hops1
                | some got =>
                    simp only []
                    by_cases h4 : got.isEmpty = true
                    · rw [if_pos h4]; exact Or.inr hops1
                    · rw [if_neg h4]
                      by_cases h5 : (s.headBuf ++ got).length < headerNeed (s.headBuf ++ got)
                      · rw [if_pos h5]; exact Or.inr hops1
                      · rw [if_neg h5]
                        rw [processHeader_io]
                        exact Or.inr hops1
            · rw [if_neg h3]
              rw [processHeader_io]
              exact Or.inl rfl
        | some hd =>
            simp only []
            by_cases h3 : hd.opcode.isCtrl = true
            · rw [if_pos h3]
              by_cases hc : cap = 0
              · rw [if_pos hc]; exact Or.inl rfl
              · rw [if_neg hc]
                rcases hio : io.read s.remaining with ⟨io1, g⟩
                have hops1 : io1.ops = io.ops + 1 := by
                  have := read_ops io s.remaining
                  rw [hio] at this
                  exact this
                cases g with
                | none => exact Or.inr hops1
                | some got =>
                    simp only []
                    by_cases h4 : got.isEmpty = true
                    · rw [if_pos h4]; exact Or.inr hops1
                    · rw [if_neg h4]
                      by_cases h5 : s.remaining - got.length = 0
                      · rw [if_pos h5]; exact Or.inr hops1
                      · rw [if_neg h5]; exact Or.inr hops1
            · rw [if_neg h3]
              by_cases h4 : min cap s.remaining = 0
              · rw [if_pos h4]; exact Or.inl rfl
              · rw [if_neg h4]
                rcases hio : io.read (min cap s.remaining) with ⟨io1, g⟩
                have hops1 : io1.ops = io.ops + 1 := by
                  have := read_ops io (min cap s.remaining)
                  rw [hio] at this
                  exact this
                cases g with
                | none => exact Or.inr hops1
                | some got =>
                    simp only []
                    by_cases h5 : got.isEmpty = true
                    · rw [if_pos h5]; exact Or.inr hops1
                    · rw [if_neg h5]
                      by_cases h6 : s.remaining - got.length = 0
                      · rw [if_pos h6]; exact Or.inr hops1
                      · rw [if_neg h6]; exact Or.inr hops1
  · intro mk s io payload
    unfold writeOnce
    by_cases h1 : s.poisoned = true
    · rw [if_pos h1]; exact Or.inl rfl
    · rw [if_neg h1]
      by_cases h2 : s.inFrame = true
      · rw [if_pos h2]
        by_cases h3 : s.pendingHead.isEmpty = true
        · rw [if_pos h3]
          simp only []
          by_cases h4 : (payload.take s.remaining).isEmpty = true
          · rw [if_pos h4]; exact Or.inl rfl
          · rw [if_neg h4]
            by_cases h5 : s.remaining -
                (io.write (match s.key with
                  | some key => maskBytes key s.cursor (payload.take s.remaining)
                  | none => payload.take s.remaining)).2 = 0
            · rw [if_pos h5]; exact Or.inr (write_ops _ _)
            · rw [if_neg h5]; exact Or.inr (write_ops _ _)
        · rw [if_neg h3]
          simp only []
          by_cases h4 : ((s.pendingHead.drop (io.write s.pendingHead).2).isEmpty &&
              decide (s.remaining = 0)) = true
          · rw [if_pos h4]; exact Or.inr (write_ops _ _)
          · rw [if_neg h4]; exact Or.inr (write_ops _ _)
      · rw [if_neg h2]
        by_cases h3 : payload.isEmpty = true
        · rw [if_pos h3]; exact Or.inl rfl
        · rw [if_neg h3]; exact Or.inr (write_ops _ _)

theorem processHeader_out (r : Bool) (s : ReadState) (b : List Nat) (io : LimitRW) :
    (processHeader r s b io).out = [] := by
  unfold processHeader
  repeat' split
  all_goals rfl

/-- C5: control-frame isolation: while a control frame (ping/pong/close) is
being consumed, no byte of it is ever placed in the caller's buffer, and
whenever a read call delivers bytes at all, the frame being consumed is a
data frame; the count a read call returns is the length of exactly these
delivered data-frame bytes. -/
theorem control_frames_isolated :
    ∀ (reqMask : Bool) (s : ReadState) (io : LimitRW) (cap : Nat),
      (∀ h, s.head = some h → h.opcode.isCtrl = true →
        (readOnce reqMask s io cap).out = []) ∧
      ((readOnce reqMask s io cap).out ≠ [] →
        ∃ h, s.head = some h ∧ h.opcode.isCtrl = false) := by
  intro reqMask s io cap
  constructor
  · intro h hh hctrl
    unfold readOnce
    rw [hh]
    simp only []
    repeat' split
    all_goals first
      | rfl
      | (exfalso; simp_all)
  · intro hne
    unfold readOnce at hne
    cases hh : s.head with
    | none =>
        rw [hh] at hne
        exfalso
        revert hne
        simp only []
        repeat' split
        all_goals first
          | (intro hne; exact hne rfl)
          | (intro hne; exact hne (processHeader_out _ _ _ _))
    | some hd =>
        rw [hh] at hne
        by_cases hctrl : hd.opcode.isCtrl = true
        · exfalso
          revert hne
          simp only []
          rw [if_pos hctrl]
          repeat' split
          all_goals first
            | (intro hne; exact hne rfl)
            | (intro hne; exact hne (processHeader_out _ _ _ _))
        · exact ⟨hd, rfl, by simpa using hctrl⟩

theorem processHeader_err_poisons (r : Bool) (s : ReadState) (b : List Nat)
    (io : LimitRW) :
    (processHeader r s b io).err = some WsError.protocolError →
    (processHeader r s b io).state.poisoned = true := by
  unfold processHeader
  repeat' split
  all_goals intro he
  all_goals first
    | rfl
    | (exfalso; simp at he)

theorem processHeader_err_ne_io (r : Bool) (s : ReadState) (b : List Nat)
    (io : LimitRW) :
    (processHeader r s b io).err ≠ some WsError.ioError := by
  unfold processHeader
  repeat' split
  all_goals intro he
  all_goals simp at he

/-- C7: ProtocolError poisons its direction: a poisoned read (or write)
state makes every further call on that direction fail immediately, with no
operation on and no change to the underlying source; any call that returns
a ProtocolError leaves its direction poisoned; an IoError returned by a
read leaves the read state unchanged (in particular not poisoned), and a
stream-level read never touches the write state machine (nor a write the
read state machine), so a failed read cannot prevent further writes. -/
theorem protocol_error_poisons_direction :
    ∀ (reqMask : Bool) (s : ReadState) (io : LimitRW) (cap : Nat)
      (mk : Option (List Nat)) (w : WriteState) (payload : List Nat)
      (R : Type) (st : Stream LimitRW R),
      (s.poisoned = true →
        readOnce reqMask s io cap = ⟨s, io, [], some WsError.protocolError⟩) ∧
      ((readOnce reqMask s io cap).err = some WsError.protocolError →
        (readOnce reqMask s io cap).state.poisoned = true) ∧
      ((readOnce reqMask s io cap).err = some WsError.ioError →
        (readOnce reqMask s io cap).state = s) ∧
      (w.poisoned = true →
        writeOnce mk w io payload = ⟨w, io, 0, payload, some WsError.protocolError⟩) ∧
      (streamRead reqMask st cap).1.write_state = st.write_state ∧
      (streamWrite mk st payload).1.read_state = st.read_state := by
  intro reqMask s io cap mk w payload R st
  refine ⟨?_, ?_, ?_, ?_, rfl, rfl⟩
  · intro hp
    unfold readOnce
    rw [if_pos hp]
  · unfold readOnce
    repeat' split
    all_goals try split_ifs
    all_goals intro he
    all_goals first
      | assumption
      | rfl
      | (exact processHeader_err_poisons _ _ _ _ he)
      | (exfalso; simp at he; done)
      | (simp only [] at he ⊢; split at he <;> split <;> first
          | (exfalso; simp at he; done)
          | (exact processHeader_err_poisons _ _ _ _ he)
          | omega)
  · unfold readOnce
    repeat' split
    all_goals try split_ifs
    all_goals intro he
    all_goals first
      | rfl
      | (exact absurd he (processHeader_err_ne_io _ _ _ _))
      | (exfalso; simp at he; done)
      | (simp only [] at he ⊢; split at he <;> split <;> first
          | (exfalso; simp at he; done)
          | (exact absurd he (processHeader_err_ne_io _ _ _ _))
          | omega)
  · intro hp
    unfold writeOnce
    rw [if_pos hp]

/-- C4: role enforcement on read: when the header scratch completes a frame
whose mask flag disagrees with the role policy (a Server receiving an
unmasked frame, or a Client receiving a masked one), the read call returns
a ProtocolError, delivers no payload bytes to the caller, performs no
further I/O, and poisons the read direction. -/
theorem mask_mismatch_protocol_error (role : Role) (h : FrameHead) (io : LimitRW)
    (cap : Nat) (hstd : h.opcode.std = true)
    (hkey : ∀ k, h.mask = some k → k.length = 4) (hlen : h.len < 2 ^ 64)
    (hmm : h.mask.isSome ≠ role.requires_mask_incoming) :
    readOnce role.requires_mask_incoming
      { ReadState.new with headBuf := encodeHead h } io cap =
      ⟨{ ReadState.new with headBuf := encodeHead h, poisoned := true }, io, [],
        some WsError.protocolError⟩ := by
  have hhn : headerNeed (encodeHead h) = headLenOf h := headerNeed_encodeHead h
  have hhl : (encodeHead h).length = headLenOf h := encodeHead_length h hkey
  simp only [ReadState.new]
  unfold readOnce
  rw [if_neg (by simp), if_neg (by simp)]
  simp only []
  rw [if_neg (show ¬((encodeHead h).length < headerNeed (encodeHead h)) by
    rw [hhn, hhl]; omega)]
  unfold processHeader
  rw [decodeHead_encodeHead h hstd hkey hlen]
  simp only []
  rw [if_pos hmm]

theorem mask_mismatch_protocol_error_witness :
    ((⟨true, OpCode.binary, none, 3⟩ : FrameHead).opcode.std = true) ∧
    (∀ k, (⟨true, OpCode.binary, none, 3⟩ : FrameHead).mask = some k → k.length = 4) ∧
    ((⟨true, OpCode.binary, none, 3⟩ : FrameHead).len < 2 ^ 64) ∧
    ((⟨true, OpCode.binary, none, 3⟩ : FrameHead).mask.isSome ≠
      Role.server.requires_mask_incoming) ∧
    readOnce Role.server.requires_mask_incoming
      { ReadState.new with headBuf := encodeHead ⟨true, OpCode.binary, none, 3⟩ }
      ⟨[], 5, 5, 0, 0, false⟩ 10 =
      ⟨{ ReadState.new with headBuf := encodeHead ⟨true, OpCode.binary, none, 3⟩,
                            poisoned := true },
        ⟨[], 5, 5, 0, 0, false⟩, [], some WsError.protocolError⟩ :=
  ⟨rfl, fun k hk => by simp at hk, by decide, by decide,
   mask_mismatch_protocol_error Role.server ⟨true, OpCode.binary, none, 3⟩
     ⟨[], 5, 5, 0, 0, false⟩ 10 rfl (fun k hk => by simp at hk) (by decide) (by decide)⟩

/-- C9: zero-return semantics of read: a read call returns zero bytes
without error both at a frame boundary that merely needs another call
(here: only part of a header is available) and at true EOF of the
underlying source (a zero-length successful underlying read, observed
whenever the caller offers capacity); the two outcomes are distinguished
only by the separate end-of-stream query `is_read_end`, which is true
after EOF and false at the mid-header boundary; and, per the spec's edge
case, a zero-capacity caller buffer returns zero bytes without attempting
any I/O (the underlying source comes back untouched). -/
theorem zero_return_semantics :
    ∀ (reqMask : Bool) (io ioB : LimitRW) (cap : Nat),
      (io.rfail = false → io.cursor = io.buf.length → 1 ≤ cap →
        (readOnce reqMask ReadState.new io cap).err = none ∧
        (readOnce reqMask ReadState.new io cap).out = [] ∧
        (readOnce reqMask ReadState.new io cap).state.is_read_end = true ∧
        (readOnce reqMask ReadState.new io cap).io.ops = io.ops + 1) ∧
      (ioB.rfail = false → ioB.cursor + 1 = ioB.buf.length → 1 ≤ ioB.rlimit →
        (readOnce reqMask ReadState.new ioB cap).err = none ∧
        (readOnce reqMask ReadState.new ioB cap).out = [] ∧
        (readOnce reqMask ReadState.new ioB cap).state.is_read_end = false) ∧
      (∀ (s : ReadState) (ioC : LimitRW),
        (readOnce reqMask s ioC 0).out = [] ∧
        (readOnce reqMask s ioC 0).io = ioC) := by
  intro reqMask io ioB cap
  refine ⟨?_, ?_, ?_⟩
  · intro hrf hcur hcap
    simp only [readOnce, ReadState.new]
    rw [if_neg (by simp), if_neg (by simp)]
    rw [if_pos (show ([] : List Nat).length < headerNeed [] by decide)]
    rw [if_neg (show ¬(cap = 0) by omega)]
    simp only [LimitRW.read]
    rw [if_neg (by rw [hrf]; simp)]
    have hgot : min (min (headerNeed ([] : List Nat) - ([] : List Nat).length)
        io.rlimit) (io.buf.length - io.cursor) = 0 := by
      have h0 : io.buf.length - io.cursor = 0 := by omega
      rw [h0]
      omega
    rw [hgot]
    simp [ReadState.is_read_end]
  · intro hrf hcur hrl
    by_cases hc : cap = 0
    · simp only [readOnce, ReadState.new]
      rw [if_neg (by simp), if_neg (by simp)]
      rw [if_pos (show ([] : List Nat).length < headerNeed [] by decide)]
      rw [if_pos hc]
      exact ⟨rfl, rfl, rfl⟩
    · simp only [readOnce, ReadState.new]
      rw [if_neg (by simp), if_neg (by simp)]
      rw [if_pos (show ([] : List Nat).length < headerNeed [] by decide)]
      rw [if_neg hc]
      simp only [LimitRW.read]
      rw [if_neg (by rw [hrf]; simp)]
      have hgot : min (min (headerNeed ([] : List Nat) - ([] : List Nat).length)
          ioB.rlimit) (ioB.buf.length - ioB.cursor) = 1 := by
        have h2 : headerNeed ([] : List Nat) - ([] : List Nat).length = 2 := rfl
        rw [h2]
        omega
      rw [hgot]
      simp only []
      have hlen1 : ((ioB.buf.drop ioB.cursor).take 1).length = 1 := by
        rw [List.length_take, List.length_drop]
        omega
      rw [if_neg (by
        rw [isEmpty_false_of_length_ne _ (by rw [hlen1]; omega)]
        simp)]
      rw [List.nil_append]
      rw [if_pos (show ((ioB.buf.drop ioB.cursor).take 1).length <
          headerNeed ((ioB.buf.drop ioB.cursor).take 1) from by
        rw [hlen1, headerNeed_short _ (by rw [hlen1]; omega)]
        omega)]
      simp [ReadState.is_read_end]
  · intro s ioC
    unfold readOnce
    repeat' split
    all_goals first
      | exact ⟨rfl, rfl⟩
      | exact ⟨processHeader_out _ _ _ _, processHeader_io _ _ _ _⟩
      | omega
      | simp_all

theorem zero_return_semantics_witness :
    ((⟨[7, 7], 5, 5, 2, 0, false⟩ : LimitRW).rfail = false ∧
      (⟨[7, 7], 5, 5, 2, 0, false⟩ : LimitRW).cursor =
        (⟨[7, 7], 5, 5, 2, 0, false⟩ : LimitRW).buf.length ∧
      (1 : Nat) ≤ 10 ∧
      (readOnce false ReadState.new ⟨[7, 7], 5, 5, 2, 0, false⟩ 10).err = none ∧
      (readOnce false ReadState.new ⟨[7, 7], 5, 5, 2, 0, false⟩ 10).state.is_read_end
        = true) ∧
    ((⟨[130], 5, 5, 0, 0, false⟩ : LimitRW).rfail = false ∧
      (⟨[130], 5, 5, 0, 0, false⟩ : LimitRW).cursor + 1 =
        (⟨[130], 5, 5, 0, 0, false⟩ : LimitRW).buf.length ∧
      (readOnce false ReadState.new ⟨[130], 5, 5, 0, 0, false⟩ 10).err = none ∧
      (readOnce false ReadState.new ⟨[130], 5, 5, 0, 0, false⟩ 10).state.is_read_end
        = false) ∧
    ((readOnce false ReadState.new ⟨[7, 7], 5, 5, 0, 0, false⟩ 0).out = [] ∧
      (readOnce false ReadState.new ⟨[7, 7], 5, 5, 0, 0, false⟩ 0).io =
        ⟨[7, 7], 5, 5, 0, 0, false⟩) :=
  ⟨⟨rfl, rfl, by decide,
    ((zero_return_semantics false ⟨[7, 7], 5, 5, 2, 0, false⟩
      ⟨[130], 5, 5, 0, 0, false⟩ 10).1 rfl rfl (by decide)).1,
    ((zero_return_semantics false ⟨[7, 7], 5, 5, 2, 0, false⟩
      ⟨[130], 5, 5, 0, 0, false⟩ 10).1 rfl rfl (by decide)).2.2.1⟩,
   ⟨rfl, rfl,
    ((zero_return_semantics false ⟨[7, 7], 5, 5, 2, 0, false⟩
      ⟨[130], 5, 5, 0, 0, false⟩ 10).2.1 rfl rfl (by decide)).1,
    ((zero_return_semantics false ⟨[7, 7], 5, 5, 2, 0, false⟩
      ⟨[130], 5, 5, 0, 0, false⟩ 10).2.1 rfl rfl (by decide)).2.2⟩,
   (zero_return_semantics false ⟨[7, 7], 5, 5, 2, 0, false⟩
      ⟨[130], 5, 5, 0, 0, false⟩ 10).2.2 ReadState.new
      ⟨[7, 7], 5, 5, 0, 0, false⟩⟩

theorem headerNeed_le (l : List Nat) : headerNeed l ≤ 14 := by
  match l with
  | [] => decide
  | [a] =>
      show (2 : Nat) ≤ 14
      decide
  | a :: b :: t =>
      show 2 + extLenOf (b % 128) + (if 128 ≤ b then 4 else 0) ≤ 14
      unfold extLenOf
      split_ifs <;> omega

theorem headLenOf_le (h : FrameHead) : headLenOf h ≤ 14 := by
  unfold headLenOf
  rcases h.mask with _ | k <;> split_ifs <;> simp

theorem read_got_le (io : LimitRW) (n : Nat) (io1 : LimitRW) (g : List Nat)
    (hg : io.read n = (io1, some g)) : g.length ≤ n := by
  unfold LimitRW.read at hg
  split_ifs at hg with h
  · simp at hg
  · simp only [Prod.mk.injEq, Option.some.injEq] at hg
    rw [← hg.2, List.length_take, List.length_drop]
    omega

theorem unmaskChunk_length (h : FrameHead) (c : Nat) (b : List Nat) :
    (unmaskChunk h c b).length = b.length := by
  unfold unmaskChunk
  split
  · rw [maskBytes_length]
  · rfl

theorem dispatchCtrl_bounded (s : ReadState) (h : FrameHead) (p : List Nat)
    (hhb : s.headBuf.length ≤ 14) : (dispatchCtrl s h p).scratchBounded := by
  unfold dispatchCtrl ReadState.scratchBounded
  split
  all_goals refine ⟨hhb, by simp, ?_⟩
  all_goals intro h2 hh2
  all_goals simp at hh2

theorem processHeader_bounded (r : Bool) (s : ReadState) (b : List Nat)
    (io : LimitRW) (hs : s.scratchBounded) :
    (processHeader r s b io).state.scratchBounded := by
  obtain ⟨h1, h2, h3⟩ := hs
  unfold processHeader
  cases hd : decodeHead b with
  | none => exact ⟨h1, h2, h3⟩
  | some h =>
      simp only []
      by_cases c1 : h.mask.isSome ≠ r
      · rw [if_pos c1]; exact ⟨h1, h2, h3⟩
      · rw [if_neg c1]
        by_cases c2 : h.opcode.std = false
        · rw [if_pos c2]; exact ⟨h1, h2, h3⟩
        · rw [if_neg c2]
          by_cases c3 : h.opcode.isCtrl = true
          · rw [if_pos c3]
            by_cases c4 : 125 < h.len
            · rw [if_pos c4]; exact ⟨h1, h2, h3⟩
            · rw [if_neg c4]
              by_cases c5 : h.len = 0
              · rw [if_pos c5]
                exact dispatchCtrl_bounded _ _ _ (by simp)
              · rw [if_neg c5]
                refine ⟨by simp, by simp, ?_⟩
                intro h4 hh4 hc4
                simp only [Option.some.injEq] at hh4
                subst hh4
                simp only [List.length_nil]
                omega
          · rw [if_neg c3]
            by_cases c5 : h.len = 0
            · rw [if_pos c5]
              refine ⟨by simp, by simpa using h2, ?_⟩
              intro h4 hh4
              simp at hh4
            · rw [if_neg c5]
              refine ⟨by simp, by simpa using h2, ?_⟩
              intro h4 hh4 hc4
              simp only [Option.some.injEq] at hh4
              subst hh4
              exact absurd hc4 (by simpa using c3)

/-- C3: no payload buffering: the initial states buffer nothing, and every
read or write call preserves the fixed scratch bounds — at most 14 bytes of
header scratch and 125 bytes of control scratch on the read side, at most
14 bytes of pending header on the write side (the role policy generating
4-byte mask keys).  No state component ever grows with the payload. -/
theorem scratch_space_bounded :
    (ReadState.new.scratchBounded ∧ WriteState.new.scratchBounded) ∧
    (∀ (reqMask : Bool) (s : ReadState) (io : LimitRW) (cap : Nat),
      s.scratchBounded → (readOnce reqMask s io cap).state.scratchBounded) ∧
    (∀ (mk : Option (List Nat)) (w : WriteState) (io : LimitRW) (payload : List Nat),
      (∀ key, mk = some key → key.length = 4) → w.scratchBounded →
      (writeOnce mk w io payload).state.scratchBounded) := by
  refine ⟨⟨⟨by simp [ReadState.new], by simp [ReadState.new], ?_⟩,
    by simp [WriteState.new, WriteState.scratchBounded]⟩, ?_, ?_⟩
  · intro h hh
    simp [ReadState.new] at hh
  · intro reqMask s io cap hs
    obtain ⟨h1, h2, h3⟩ := hs
    unfold readOnce
    by_cases c1 : s.poisoned = true
    · rw [if_pos c1]; exact ⟨h1, h2, h3⟩
    · rw [if_neg c1]
      by_cases c2 : s.closeObserved = true
      · rw [if_pos c2]; exact ⟨h1, h2, h3⟩
      · rw [if_neg c2]
        cases hh : s.head with
        | none =>
            simp only []
            by_cases c3 : s.headBuf.length < headerNeed s.headBuf
            · rw [if_pos c3]
              by_cases cc : cap = 0
              · rw [if_pos cc]; exact ⟨h1, h2, h3⟩
              · rw [if_neg cc]
                rcases hio : io.read (headerNeed s.headBuf - s.headBuf.length)
                  with ⟨io1, g⟩
                cases g with
                | none => exact ⟨h1, h2, h3⟩
                | some got =>
                    simp only []
                    have hgle : got.length ≤ headerNeed s.headBuf - s.headBuf.length :=
                      read_got_le _ _ _ _ hio
                    have hn14 : headerNeed s.headBuf ≤ 14 := headerNeed_le _
                    by_cases c4 : got.isEmpty = true
                    · rw [if_pos c4]
                      exact ⟨h1, h2, fun h4 hh4 => by simp at hh4⟩
                    · rw [if_neg c4]
                      by_cases c5 : (s.headBuf ++ got).length <
                          headerNeed (s.headBuf ++ got)
                      · rw [if_pos c5]
                        refine ⟨?_, h2, ?_⟩
                        · simp only [List.length_append]
                          omega
                        · intro h4 hh4
                          simp at hh4
                      · rw [if_neg c5]
                        exact processHeader_bounded _ _ _ _ ⟨h1, h2, h3⟩
            · rw [if_neg c3]
              exact processHeader_bounded _ _ _ _ ⟨h1, h2, h3⟩
        | some hd =>
            simp only []
            by_cases c3 : hd.opcode.isCtrl = true
            · rw [if_pos c3]
              by_cases cc : cap = 0
              · rw [if_pos cc]; exact ⟨h1, h2, h3⟩
              · rw [if_neg cc]
                rcases hio : io.read s.remaining with ⟨io1, g⟩
                cases g with
                | none => exact ⟨h1, h2, h3⟩
                | some got =>
                    simp only []
                    have hgle : got.length ≤ s.remaining := read_got_le _ _ _ _ hio
                    have hsum : s.ctrlBuf.length + s.remaining ≤ 125 := h3 hd hh c3
                    by_cases c4 : got.isEmpty = true
                    · rw [if_pos c4]
                      exact ⟨h1, h2, fun h4 hh4 _ => by
                        simp only [Option.some.injEq] at hh4
                        subst hh4
                        exact hsum⟩
                    · rw [if_neg c4]
                      by_cases c5 : s.remaining - got.length = 0
                      · rw [if_pos c5]
                        exact dispatchCtrl_bounded _ _ _ (by simpa using h1)
                      · rw [if_neg c5]
                        refine ⟨h1, ?_, ?_⟩
                        · simp only [List.length_append, unmaskChunk_length]
                          omega
                        · intro h4 hh4 hc4
                          simp only [Option.some.injEq] at hh4
                          subst hh4
                          simp only [List.length_append, unmaskChunk_length]
                          omega
            · rw [if_neg c3]
              by_cases c4 : min cap s.remaining = 0
              · rw [if_pos c4]; exact ⟨h1, h2, h3⟩
              · rw [if_neg c4]
                rcases hio : io.read (min cap s.remaining) with ⟨io1, g⟩
                cases g with
                | none => exact ⟨h1, h2, h3⟩
                | some got =>
                    simp only []
                    by_cases c5 : got.isEmpty = true
                    · rw [if_pos c5]
                      exact ⟨h1, h2, fun h4 hh4 hc4 => by
                        simp only [Option.some.injEq] at hh4
                        subst hh4
                        exact absurd hc4 (by simpa using c3)⟩
                    · rw [if_neg c5]
                      by_cases c6 : s.remaining - got.length = 0
                      · rw [if_pos c6]
                        refine ⟨h1, h2, ?_⟩
                        intro h4 hh4
                        simp at hh4
                      · rw [if_neg c6]
                        refine ⟨h1, h2, ?_⟩
                        intro h4 hh4 hc4
                        simp only [Option.some.injEq] at hh4
                        subst hh4
                        exact absurd hc4 (by simpa using c3)
  · intro mk w io payload hmk hw
    have hkey4 : ∀ k, (FrameHead.mk true OpCode.binary mk payload.length).mask = some k →
        k.length = 4 := fun k hk => hmk k hk
    unfold writeOnce
    by_cases c1 : w.poisoned = true
    · rw [if_pos c1]; exact hw
    · rw [if_neg c1]
      by_cases c2 : w.inFrame = true
      · rw [if_pos c2]
        by_cases c3 : w.pendingHead.isEmpty = true
        · rw [if_pos c3]
          simp only []
          by_cases c4 : (payload.take w.remaining).isEmpty = true
          · rw [if_pos c4]; exact hw
          · rw [if_neg c4]
            by_cases c5 : w.remaining -
                (io.write (match w.key with
                  | some key => maskBytes key w.cursor (payload.take w.remaining)
                  | none => payload.take w.remaining)).2 = 0
            · rw [if_pos c5]
              show ([] : List Nat).length ≤ 14
              simp
            · rw [if_neg c5]
              exact hw
        · rw [if_neg c3]
          simp only []
          by_cases c4 : ((w.pendingHead.drop (io.write w.pendingHead).2).isEmpty &&
              decide (w.remaining = 0)) = true
          · rw [if_pos c4]
            show ([] : List Nat).length ≤ 14
            simp
          · rw [if_neg c4]
            show (w.pendingHead.drop (io.write w.pendingHead).2).length ≤ 14
            rw [List.length_drop]
            have := hw
            unfold WriteState.scratchBounded at this
            omega
      · rw [if_neg c2]
        by_cases c3 : payload.isEmpty = true
        · rw [if_pos c3]; exact hw
        · rw [if_neg c3]
          show ((encodeHead ⟨true, OpCode.binary, mk, payload.length⟩).drop
            (io.write (encodeHead ⟨true, OpCode.binary, mk, payload.length⟩)).2).length ≤ 14
          rw [List.length_drop, encodeHead_length _ hkey4]
          have := headLenOf_le (FrameHead.mk true OpCode.binary mk payload.length)
          omega

theorem scratch_space_bounded_witness :
    ReadState.new.scratchBounded ∧ WriteState.new.scratchBounded ∧
    (readOnce true ReadState.new ⟨[130, 2, 9, 9], 5, 5, 0, 0, false⟩ 10).state.scratchBounded ∧
    (writeOnce (some [1, 2, 3, 4]) WriteState.new ⟨[], 5, 5, 0, 0, false⟩
      [7, 7]).state.scratchBounded :=
  ⟨scratch_space_bounded.1.1, scratch_space_bounded.1.2,
   scratch_space_bounded.2.1 true ReadState.new ⟨[130, 2, 9, 9], 5, 5, 0, 0, false⟩ 10
     scratch_space_bounded.1.1,
   scratch_space_bounded.2.2 (some [1, 2, 3, 4]) WriteState.new ⟨[], 5, 5, 0, 0, false⟩
     [7, 7] (fun key hk => by
       injection hk with h
       rw [← h]
       rfl)
     scratch_space_bounded.1.2⟩

theorem control_frames_isolated_witness :
    (readOnce false
      { ReadState.new with head := some ⟨true, OpCode.ping, none, 4⟩, remaining := 4 }
      ⟨[5, 6, 7, 8], 3, 3, 0, 0, false⟩ 10).out = [] :=
  (control_frames_isolated false
    { ReadState.new with head := some ⟨true, OpCode.ping, none, 4⟩, remaining := 4 }
    ⟨[5, 6, 7, 8], 3, 3, 0, 0, false⟩ 10).1 ⟨true, OpCode.ping, none, 4⟩ rfl rfl

theorem protocol_error_poisons_direction_witness :
    ({ ReadState.new with poisoned := true } : ReadState).poisoned = true ∧
    readOnce false { ReadState.new with poisoned := true }
      ⟨[], 5, 5, 0, 0, false⟩ 10 =
      ⟨{ ReadState.new with poisoned := true }, ⟨[], 5, 5, 0, 0, false⟩, [],
        some WsError.protocolError⟩ ∧
    ({ WriteState.new with poisoned := true } : WriteState).poisoned = true ∧
    writeOnce none { WriteState.new with poisoned := true }
      ⟨[], 5, 5, 0, 0, false⟩ [1] =
      ⟨{ WriteState.new with poisoned := true }, ⟨[], 5, 5, 0, 0, false⟩, 0, [1],
        some WsError.protocolError⟩ :=
  ⟨rfl,
   (protocol_error_poisons_direction false { ReadState.new with poisoned := true }
     ⟨[], 5, 5, 0, 0, false⟩ 10 none { WriteState.new with poisoned := true } [1]
     Unit (Stream.new LimitRW Unit ⟨[], 5, 5, 0, 0, false⟩)).1 rfl,
   rfl,
   ((protocol_error_poisons_direction false { ReadState.new with poisoned := true }
     ⟨[], 5, 5, 0, 0, false⟩ 10 none { WriteState.new with poisoned := true } [1]
     Unit (Stream.new LimitRW Unit ⟨[], 5, 5, 0, 0, false⟩)).2.2.2.1) rfl⟩
